import Mathlib

/-!
Verification of the encoder control core of cros-codecs (stateless H.264 encoder):
the promise output queue (src/src/encoder/stateless.rs), the two prediction
structures LowDelay and GroupOfPictures (src/src/encoder/stateless/h264/predictor.rs)
and the stateless encoder binding them (src/src/encoder/stateless/h264.rs).

Modelling conventions:
* Rust `&mut self` methods become state-passing functions `State → … → Except RunErr (State × …)`.
* Machine integers (`u16`, `u32`) are modelled as `Nat` with explicit range checks:
  an operation that overflows or underflows its Rust type is modelled as the
  `RunErr.panicArith` outcome, mirroring Rust's declared-program-error semantics for
  integer overflow (a panic under the debug profile).  `usize` collection lengths are
  plain `Nat` except where the source can actually underflow (`tail as usize - 1`).
* `Option::unwrap` on `None` is `RunErr.panicUnwrap`; a failed `assert!` is
  `RunErr.panicAssert`; a match with no applicable arm is `RunErr.panicMatch`;
  `%` by zero is `RunErr.panicArith`.
* Unbounded `while` loops are modelled with an explicit fuel argument; running out of
  fuel is the distinguished `RunErr.outOfFuel`, so an `.ok` result certifies that the
  source loop terminated with the stated result.
* `Rc<T>` sharing is modelled by value; `VecDeque` by `List` with the front at the head.
-/

namespace CrosCodecs

/-- Model of `crate::BlockingMode` (declared outside the given sources; the spec §4.2
describes it as the policy `BlockingMode ∈ {Blocking, NonBlocking}`). -/
inductive BlockingMode
  | blocking
  | nonBlocking
  deriving DecidableEq

/-- Model of `StatelessBackendError` (src/src/encoder/stateless.rs). -/
inductive StatelessBackendError
  | unsupportedProfile
  | unsupportedFormat
  | outOfResources
  | other
  deriving DecidableEq

/-- Failure outcomes of a model run: the source's `EncodeError::InvalidInternalState`,
a propagated backend error, the several Rust panics, and fuel exhaustion for loops
modelled with fuel. -/
inductive RunErr
  | invalidInternalState
  | backendError (e : StatelessBackendError)
  | panicArith
  | panicAssert
  | panicUnwrap
  | panicMatch
  | outOfFuel
  deriving DecidableEq

/-- Checked `u16` arithmetic: the value must fit in 16 bits. -/
def chkU16 (n : Nat) : Except RunErr Nat :=
  if n < 65536 then .ok n else .error .panicArith

/-- Checked `u32` arithmetic: the value must fit in 32 bits. -/
def chkU32 (n : Nat) : Except RunErr Nat :=
  if n < 4294967296 then .ok n else .error .panicArith

/-- Model of `crate::Resolution` (declared outside the given sources). -/
structure Resolution where
  width : Nat
  height : Nat
  deriving DecidableEq

/-- Modelled from the spec: `FrameMetadata` is declared in src/encoder.rs, which is not
among the given sources.  Spec §3 lists its fields: `display_resolution`, `layout`
(pixel format and per-plane offset/stride, opaque to the control core and modelled as
an opaque tag), the `force_keyframe` flag and an opaque 64-bit `timestamp`. -/
structure FrameMetadata where
  display_resolution : Resolution
  layout : Nat
  force_keyframe : Bool
  timestamp : Nat
  deriving DecidableEq

/-- Modelled from the spec: `CodedBitstreamBuffer` (src/encoder.rs, outside the given
sources) pairs the input `FrameMetadata` of the encoded frame with the finalized
bitstream bytes (§3). -/
structure CodedBitstreamBuffer where
  meta : FrameMetadata
  bitstream : List Nat
  deriving DecidableEq

/-- Model of `IsReference` (src/src/encoder/stateless/h264.rs). -/
inductive IsReference
  | no
  | shortTerm
  | longTerm
  deriving DecidableEq

/-- Model of `DpbEntryMeta` (src/src/encoder/stateless/h264.rs): `poc: u16`,
`frame_num: u32`, `is_reference`.  Equality is structural, as in the source
(`PartialEq` derived through use in `Option` comparison). -/
structure DpbEntryMeta where
  poc : Nat
  frame_num : Nat
  is_reference : IsReference
  deriving DecidableEq

/-- Model of `DpbEntry<R>` (src/src/encoder/stateless/h264.rs): a reconstructed
picture handle together with its DPB metadata. -/
structure DpbEntry (R : Type) where
  recon_pic : R
  meta : DpbEntryMeta
  deriving DecidableEq

/-- Model of `PredictionStructure` (src/src/encoder/stateless/h264/predictor.rs). -/
inductive PredictionStructure
  | lowDelay (tail limit : Nat)
  | groupOfPictures (size limit : Nat)
  deriving DecidableEq

/-- Model of `EncoderConfig` (src/src/encoder/stateless/h264.rs).  The codec
parameters `bitrate`, `framerate`, `resolution`, `profile`, `level` and `default_qp`
only feed the SPS/PPS synthesis, whose types live outside the given sources; the
control flow verified here depends only on `pred_structure`, so the other fields are
carried as plain numbers or omitted. -/
structure EncoderConfig where
  framerate : Nat
  resolution : Resolution
  pred_structure : PredictionStructure
  default_qp : Nat
  deriving DecidableEq

/-- Model of `BackendRequest<P, R>` (src/src/encoder/stateless/h264.rs).  The fields
`sps`, `pps`, `header`, `num_macroblocks` and `config` hold parameter-set values
built by codec-parser code outside the given sources and are not inspected by any of
the verified control flow, so they are omitted here; all fields the claims speak
about are kept. -/
structure BackendRequest (P R : Type) where
  input : P
  input_meta : FrameMetadata
  dpb_meta : DpbEntryMeta
  ref_list_0 : List (DpbEntry R)
  ref_list_1 : List (DpbEntry R)
  is_idr : Bool
  coded_output : List Nat
  deriving DecidableEq

/-- Model of `PredictorVerdict<P, R>` (src/src/encoder/stateless/h264/predictor.rs). -/
inductive PredictorVerdict (P R : Type)
  | noOperation
  | request (requests : List (BackendRequest P R))

/-- Requests carried by a verdict (`NoOperation` carries none). -/
def PredictorVerdict.requestsOf : PredictorVerdict P R → List (BackendRequest P R)
  | .noOperation => []
  | .request l => l

/-- Modelled from the spec: the coded bytes the `Synthesizer` (codec-parser code
outside the given sources) appends for an IDR request, namely an SPS NAL followed by
a PPS NAL, each framed with a 3-byte start code (§4.4.1, §6).  The byte values are
not modelled; only the structure start-code/SPS/start-code/PPS is represented. -/
def synthesized_headers : List Nat := [0, 0, 1, 7, 0, 0, 1, 8]

/-! ## OutputQueue (src/src/encoder/stateless.rs)

A `BackendPromise` is modelled by the two observations the queue makes of it:
`is_ready` and the result `sync` would produce. -/

instance {ε α : Type} [DecidableEq ε] [DecidableEq α] : DecidableEq (Except ε α) := by
  intro a b
  cases a <;> cases b
  case error.error x y =>
    exact if h : x = y then isTrue (by rw [h]) else isFalse (by intro hc; cases hc; exact h rfl)
  case ok.ok x y =>
    exact if h : x = y then isTrue (by rw [h]) else isFalse (by intro hc; cases hc; exact h rfl)
  case error.ok x y => exact isFalse (by intro h; cases h)
  case ok.error x y => exact isFalse (by intro h; cases h)

/-- Model of a value implementing `BackendPromise` (src/src/encoder/stateless.rs):
`isReady` is the `is_ready()` observation, `syncResult` the value `sync(self)`
returns (after blocking if necessary). -/
structure MPromise (T : Type) where
  isReady : Bool
  syncResult : Except StatelessBackendError T
  deriving DecidableEq

/-- Model of `OutputQueue<O>` (src/src/encoder/stateless.rs). -/
structure OutputQueue (T : Type) where
  blocking : BlockingMode
  promises : List (MPromise T)
  deriving DecidableEq

/-- Model of `OutputQueue::new`. -/
def OutputQueue.new (mode : BlockingMode) : OutputQueue T :=
  { blocking := mode, promises := [] }

/-- Model of `OutputQueue::add_promise`: push to the back. -/
def OutputQueue.add_promise (q : OutputQueue T) (p : MPromise T) : OutputQueue T :=
  { q with promises := q.promises ++ [p] }

/-- Model of `OutputQueue::poll`: `block` holds if either the constructor mode or the
argument mode is `Blocking`; the head is popped and synced if `block` or it is ready
(a sync error propagates with the head already removed), otherwise it is pushed back
to the front and `None` is returned. -/
def OutputQueue.poll (q : OutputQueue T) (mode : BlockingMode) :
    Except StatelessBackendError (Option T) × OutputQueue T :=
  let block : Bool := q.blocking == BlockingMode.blocking || mode == BlockingMode.blocking
  match q.promises with
  | [] => (.ok none, q)
  | o :: rest =>
    if block || o.isReady then
      (o.syncResult.map some, { q with promises := rest })
    else
      (.ok none, q)

/-- Model of `OutputQueue::is_empty`. -/
def OutputQueue.is_empty (q : OutputQueue T) : Bool :=
  q.promises.isEmpty

/-- A client operation on an `OutputQueue`: add a promise or poll with a mode. -/
inductive QOp (T : Type)
  | add (p : MPromise T)
  | poll (mode : BlockingMode)

/-- Run a sequence of queue operations, collecting, in order, the outcome of every
poll that removed (and synced) a promise. -/
def runQ (q : OutputQueue T) : List (QOp T) → List (Except StatelessBackendError T) × OutputQueue T
  | [] => ([], q)
  | .add p :: rest => runQ (q.add_promise p) rest
  | .poll m :: rest =>
    match q.poll m with
    | (.ok none, q2) => runQ q2 rest
    | (.ok (some v), q2) =>
      let r := runQ q2 rest
      (.ok v :: r.1, r.2)
    | (.error e, q2) =>
      let r := runQ q2 rest
      (.error e :: r.1, r.2)

/-- The promises added by a sequence of queue operations, in submission order. -/
def addedOf : List (QOp T) → List (MPromise T)
  | [] => []
  | .add p :: rest => p :: addedOf rest
  | .poll _ :: rest => addedOf rest

/-! ## LowDelay predictor (src/src/encoder/stateless/h264/predictor.rs) -/

/-- Model of the `LowDelay<P, R>` predictor state.  `sps`/`pps` are `Option<Rc<…>>`
in the source; their parameter-set contents are built by codec-parser code outside
the given sources and never inspected by the verified control flow, so they are
modelled as presence flags `Option Unit`. -/
structure LowDelay (P R : Type) where
  counter : Nat
  limit : Nat
  tail : Nat
  queue : List (P × FrameMetadata)
  dpb : List (DpbEntry R)
  sps : Option Unit
  pps : Option Unit
  deriving DecidableEq

/-- Model of `LowDelay::new`: reads `tail` and `limit` from the config, panicking
(`_ => panic!()`) on any other prediction structure. -/
def LowDelay.new (P R : Type) (config : EncoderConfig) : Except RunErr (LowDelay P R) :=
  match config.pred_structure with
  | .lowDelay tail limit =>
    .ok { counter := 0, limit := limit, tail := tail, queue := [], dpb := [],
          sps := none, pps := none }
  | .groupOfPictures _ _ => .error .panicMatch

/-- Model of `LowDelay::new_sequence`: build a fresh SPS/PPS pair and clear the DPB.
The SPS/PPS field values are synthesized by code outside the given sources. -/
def LowDelay.new_sequence (s : LowDelay P R) : LowDelay P R :=
  { s with dpb := [], sps := some (), pps := some () }

/-- Model of `LowDelay::request_idr`: reset the counter, begin a new sequence, emit
an IDR request with empty reference lists and the synthesized SPS/PPS headers as
`coded_output`, and advance the counter. -/
def LowDelay.request_idr (s : LowDelay P R) (input : P) (input_meta : FrameMetadata) :
    Except RunErr (LowDelay P R × PredictorVerdict P R) :=
  let s := s.new_sequence
  let s := { s with counter := 0 }
  if s.counter * 2 < 65536 then
    if s.counter + 1 < 65536 then
      let dpb_meta : DpbEntryMeta :=
        { poc := s.counter * 2, frame_num := s.counter, is_reference := .shortTerm }
      let req : BackendRequest P R :=
        { input := input, input_meta := input_meta, dpb_meta := dpb_meta,
          ref_list_0 := [], ref_list_1 := [], is_idr := true,
          coded_output := synthesized_headers }
      .ok ({ s with counter := s.counter + 1 }, .request [req])
    else .error .panicArith
  else .error .panicArith

/-- Evict from the front (oldest first) until at most `keep` entries remain; this is
the loop `while self.dpb.len() > keep { self.dpb.pop_front(); }`. -/
def evictFront (l : List α) (keep : Nat) : List α :=
  l.drop (l.length - keep)

/-- Model of `LowDelay::request_interframe`: build `ref_list_0` from the DPB in
most-recent-first order, emit a P request (`is_idr = false`, empty `ref_list_1`,
empty `coded_output`), advance the counter and evict the oldest DPB entries until at
most `tail - 1` remain.  The source computes the eviction bound as
`self.tail as usize - 1`, which underflows when `tail = 0`. -/
def LowDelay.request_interframe (s : LowDelay P R) (input : P) (input_meta : FrameMetadata) :
    Except RunErr (LowDelay P R × PredictorVerdict P R) :=
  let ref_list_0 := s.dpb.reverse
  match s.sps, s.pps with
  | some _, some _ =>
    if s.counter * 2 < 65536 then
      if s.counter + 1 < 65536 then
        let dpb_meta : DpbEntryMeta :=
          { poc := s.counter * 2, frame_num := s.counter, is_reference := .shortTerm }
        let req : BackendRequest P R :=
          { input := input, input_meta := input_meta, dpb_meta := dpb_meta,
            ref_list_0 := ref_list_0, ref_list_1 := [], is_idr := false,
            coded_output := [] }
        if s.tail = 0 then
          .error .panicArith
        else
          .ok ({ s with counter := s.counter + 1, dpb := evictFront s.dpb (s.tail - 1) },
               .request [req])
      else .error .panicArith
    else .error .panicArith
  | _, _ => .error .panicUnwrap

/-- Model of `LowDelay::next_request`: reduce the counter mod `limit` (a Rust panic
when `limit = 0`), then pop the pending queue head and dispatch: IDR when the counter
is 0 or the frame forces a keyframe; `NoOperation` (frame pushed back) when the DPB
is starved; otherwise a P frame after the source's `assert!` that the newest DPB
entry has `frame_num == counter - 1`. -/
def LowDelay.next_request (s : LowDelay P R) :
    Except RunErr (LowDelay P R × PredictorVerdict P R) :=
  if s.limit = 0 then .error .panicArith
  else
    let s := { s with counter := s.counter % s.limit }
    match s.queue with
    | [] => .ok (s, .noOperation)
    | (input, meta) :: rest =>
      if s.counter = 0 ∨ meta.force_keyframe = true then
        LowDelay.request_idr { s with queue := rest } input meta
      else if s.dpb.isEmpty = true ∨ s.dpb.length < min s.counter s.tail then
        .ok (s, .noOperation)
      else
        match s.dpb.getLast? with
        | none => .error .panicAssert
        | some e =>
          if e.meta.frame_num = s.counter - 1 then
            LowDelay.request_interframe { s with queue := rest } input meta
          else
            .error .panicAssert

/-- Model of `<LowDelay as Predictor>::new_frame`: push the frame to the back of the
pending queue and attempt an emission. -/
def LowDelay.new_frame (s : LowDelay P R) (input : P) (frame_metadata : FrameMetadata) :
    Except RunErr (LowDelay P R × PredictorVerdict P R) :=
  LowDelay.next_request { s with queue := s.queue ++ [(input, frame_metadata)] }

/-- Model of `<LowDelay as Predictor>::reconstructed`: push the reconstructed entry
to the back of the DPB and attempt an emission. -/
def LowDelay.reconstructed (s : LowDelay P R) (recon : DpbEntry R) :
    Except RunErr (LowDelay P R × PredictorVerdict P R) :=
  LowDelay.next_request { s with dpb := s.dpb ++ [recon] }

/-- Model of `<LowDelay as Predictor>::drain`: always `Err(InvalidInternalState)`. -/
def LowDelay.drain (_s : LowDelay P R) :
    Except RunErr (LowDelay P R × List (BackendRequest P R)) :=
  .error .invalidInternalState

/-! ## Predictor trace semantics

A trace is a list of calls through the `Predictor` trait interface.  The runner
executes them in order, recording each emitted request together with the list of
`DpbEntry` values delivered through `reconstructed` up to that point; it stops at the
first failing call (a failing Rust call unwinds and returns no requests). -/

/-- A call through the `Predictor<P, R>` trait object interface. -/
inductive PredOp (P R : Type)
  | new_frame (input : P) (meta : FrameMetadata)
  | reconstructed (e : DpbEntry R)
  | drain
  deriving DecidableEq

/-- Generic predictor-trace runner: `step` executes one call and returns the emitted
requests.  Returns the log of (request, entries delivered so far) pairs and the final
state (or the first error). -/
def runPred (step : σ → PredOp P R → Except RunErr (σ × List (BackendRequest P R)))
    (s : σ) (delivered : List (DpbEntry R))
    (log : List (BackendRequest P R × List (DpbEntry R))) :
    List (PredOp P R) → List (BackendRequest P R × List (DpbEntry R)) × Except RunErr σ
  | [] => (log, .ok s)
  | op :: rest =>
    let delivered2 := match op with
      | .reconstructed e => delivered ++ [e]
      | _ => delivered
    match step s op with
    | .error e => (log, .error e)
    | .ok (s2, reqs) =>
      runPred step s2 delivered2 (log ++ reqs.map (fun r => (r, delivered2))) rest

/-- One `Predictor` call on a `LowDelay` state. -/
def LowDelay.step (s : LowDelay P R) : PredOp P R →
    Except RunErr (LowDelay P R × List (BackendRequest P R))
  | .new_frame input meta =>
    match s.new_frame input meta with
    | .ok (s2, v) => .ok (s2, v.requestsOf)
    | .error e => .error e
  | .reconstructed e =>
    match s.reconstructed e with
    | .ok (s2, v) => .ok (s2, v.requestsOf)
    | .error e => .error e
  | .drain =>
    match s.drain with
    | .ok (s2, reqs) => .ok (s2, reqs)
    | .error e => .error e

/-- Run a `LowDelay` trace from the initial state for the given `tail`/`limit`. -/
def LowDelay.run (P R : Type) (tail limit : Nat) (ops : List (PredOp P R)) :
    List (BackendRequest P R × List (DpbEntry R)) × Except RunErr (LowDelay P R) :=
  runPred LowDelay.step
    { counter := 0, limit := limit, tail := tail, queue := [], dpb := [],
      sps := none, pps := none }
    [] [] ops

/-! ## Synchronous driver for `LowDelay`

The encoder delivers, for every submitted request, a `DpbEntry` whose metadata is the
request's `dpb_meta` (built by `ReferencePromise::sync` in
src/src/encoder/stateless/h264.rs); with a backend of ready promises every
reconstruction is delivered before the next frame is fed.  The driver below models
exactly that interaction at the predictor interface. -/

/-- The `DpbEntry` the encoder delivers back for a submitted request:
`ReferencePromise::sync` pairs the backend's reconstructed handle with the stored
`dpb_meta` of the request. -/
def mkReconEntry (r : BackendRequest P Unit) : DpbEntry Unit :=
  { recon_pic := (), meta := r.dpb_meta }

/-- Deliver reconstructions for each request in `todo` in submission order; requests
emitted in response are themselves appended to `todo` and to the log. -/
def LowDelay.syncDeliver (fuel : Nat) (s : LowDelay Unit Unit)
    (todo log : List (BackendRequest Unit Unit)) :
    Except RunErr (LowDelay Unit Unit × List (BackendRequest Unit Unit)) :=
  match fuel with
  | 0 => .error .outOfFuel
  | fuel + 1 =>
    match todo with
    | [] => .ok (s, log)
    | r :: rest =>
      match s.reconstructed (mkReconEntry r) with
      | .error e => .error e
      | .ok (s2, v) =>
        LowDelay.syncDeliver fuel s2 (rest ++ v.requestsOf) (log ++ v.requestsOf)

/-- Feed the frames one by one through `new_frame`, delivering every emitted
request's reconstruction immediately; the log collects every emitted request in
emission order. -/
def LowDelay.syncRun (fuel : Nat) (s : LowDelay Unit Unit)
    (metas : List FrameMetadata) (log : List (BackendRequest Unit Unit)) :
    Except RunErr (LowDelay Unit Unit × List (BackendRequest Unit Unit)) :=
  match metas with
  | [] => .ok (s, log)
  | m :: rest =>
    match s.new_frame () m with
    | .error e => .error e
    | .ok (s2, v) =>
      match LowDelay.syncDeliver fuel s2 v.requestsOf (log ++ v.requestsOf) with
      | .error e => .error e
      | .ok (s3, log2) => LowDelay.syncRun fuel s3 rest log2

/-- The initial `LowDelay` state for given `tail` and `limit`. -/
def LowDelay.init (tail limit : Nat) : LowDelay Unit Unit :=
  { counter := 0, limit := limit, tail := tail, queue := [], dpb := [],
    sps := none, pps := none }

/-! ## GroupOfPictures predictor (src/src/encoder/stateless/h264/predictor.rs) -/

/-- Model of the `GroupOfPictures<P, R>` predictor state. -/
structure GroupOfPictures (P R : Type) where
  poc_counter : Nat
  frame_counter : Nat
  limit : Nat
  size : Nat
  pending : List (P × FrameMetadata)
  future_b_frames : List (P × FrameMetadata)
  l0_ref : Option (DpbEntry R)
  idr_ref_pending : Option DpbEntryMeta
  l1_ref_pending : Option DpbEntryMeta
  sps : Option Unit
  pps : Option Unit
  deriving DecidableEq

/-- Model of `GroupOfPictures::new`: reads `size` and `limit` from the config,
panicking (`_ => panic!()`) on any other prediction structure. -/
def GroupOfPictures.new (P R : Type) (config : EncoderConfig) :
    Except RunErr (GroupOfPictures P R) :=
  match config.pred_structure with
  | .groupOfPictures size limit =>
    .ok { poc_counter := 0, frame_counter := 0, limit := limit, size := size,
          pending := [], future_b_frames := [], l0_ref := none,
          idr_ref_pending := none, l1_ref_pending := none, sps := none, pps := none }
  | .lowDelay _ _ => .error .panicMatch

/-- Model of `GroupOfPictures::new_sequence`: build fresh SPS/PPS and reset the
counters and reference bookkeeping. -/
def GroupOfPictures.new_sequence (s : GroupOfPictures P R) : GroupOfPictures P R :=
  { s with frame_counter := 0, poc_counter := 0, l0_ref := none,
           idr_ref_pending := none, l1_ref_pending := none,
           sps := some (), pps := some () }

/-- Model of `GroupOfPictures::request_idr`: begin a new sequence, emit the IDR with
empty reference lists and the synthesized headers, remember the pending IDR
reconstruction metadata and advance both counters. -/
def GroupOfPictures.request_idr (s : GroupOfPictures P R) (input : P)
    (input_meta : FrameMetadata) :
    Except RunErr (GroupOfPictures P R × BackendRequest P R) :=
  let s := s.new_sequence
  if s.poc_counter * 2 < 65536 then
    if s.poc_counter + 1 < 65536 then
      if s.frame_counter + 1 < 4294967296 then
        let dpb_meta : DpbEntryMeta :=
          { poc := s.poc_counter * 2, frame_num := s.frame_counter,
            is_reference := .shortTerm }
        let req : BackendRequest P R :=
          { input := input, input_meta := input_meta, dpb_meta := dpb_meta,
            ref_list_0 := [], ref_list_1 := [], is_idr := true,
            coded_output := synthesized_headers }
        .ok ({ s with poc_counter := s.poc_counter + 1,
                      frame_counter := s.frame_counter + 1,
                      idr_ref_pending := some dpb_meta }, req)
      else .error .panicArith
    else .error .panicArith
  else .error .panicArith

/-- Model of `GroupOfPictures::request_p`: `poc = (poc_counter + size) * 2`,
`frame_num = frame_counter`, `ref_list_0 = [l0_ref]` (a Rust `unwrap`), record the
request's metadata in `l1_ref_pending` and advance both counters. -/
def GroupOfPictures.request_p (s : GroupOfPictures P R) (input : P)
    (input_meta : FrameMetadata) :
    Except RunErr (GroupOfPictures P R × BackendRequest P R) :=
  match s.sps, s.pps with
  | some _, some _ =>
    match s.l0_ref with
    | none => .error .panicUnwrap
    | some l0 =>
      if s.poc_counter + s.size < 65536 then
        if (s.poc_counter + s.size) * 2 < 65536 then
          if s.poc_counter + 1 < 65536 then
            if s.frame_counter + 1 < 4294967296 then
              let dpb_meta : DpbEntryMeta :=
                { poc := (s.poc_counter + s.size) * 2, frame_num := s.frame_counter,
                  is_reference := .shortTerm }
              let req : BackendRequest P R :=
                { input := input, input_meta := input_meta, dpb_meta := dpb_meta,
                  ref_list_0 := [l0], ref_list_1 := [], is_idr := false,
                  coded_output := [] }
              .ok ({ s with l1_ref_pending := some dpb_meta,
                            poc_counter := s.poc_counter + 1,
                            frame_counter := s.frame_counter + 1 }, req)
            else .error .panicArith
          else .error .panicArith
        else .error .panicArith
      else .error .panicArith
  | _, _ => .error .panicUnwrap

/-- Model of `GroupOfPictures::request_b`: `poc = (poc_counter - 1) * 2` (a `u16`
subtraction that underflows when `poc_counter = 0`), `frame_num = frame_counter`
(not advanced), `is_reference = No`, `ref_list_0 = [l0_ref]` (a Rust `unwrap`),
`ref_list_1 = [l1_ref]`, and `poc_counter` advances by one. -/
def GroupOfPictures.request_b (s : GroupOfPictures P R) (input : P)
    (input_meta : FrameMetadata) (l1_ref : DpbEntry R) :
    Except RunErr (GroupOfPictures P R × BackendRequest P R) :=
  match s.sps, s.pps with
  | some _, some _ =>
    match s.l0_ref with
    | none => .error .panicUnwrap
    | some l0 =>
      if s.poc_counter = 0 then .error .panicArith
      else
        if (s.poc_counter - 1) * 2 < 65536 then
          if s.poc_counter + 1 < 65536 then
            let dpb_meta : DpbEntryMeta :=
              { poc := (s.poc_counter - 1) * 2, frame_num := s.frame_counter,
                is_reference := .no }
            let req : BackendRequest P R :=
              { input := input, input_meta := input_meta, dpb_meta := dpb_meta,
                ref_list_0 := [l0], ref_list_1 := [l1_ref], is_idr := false,
                coded_output := [] }
            .ok ({ s with poc_counter := s.poc_counter + 1 }, req)
          else .error .panicArith
        else .error .panicArith
  | _, _ => .error .panicUnwrap

/-- Model of the loop body of `GroupOfPictures::next_i_p_frames`, recursing on the
pending queue: emit an IDR before any sequence exists, buffer up to `size` future B
frames, emit a P when the previous GOP is closed, and otherwise push the frame back
and stop. -/
def GroupOfPictures.nextIPGo :
    List (P × FrameMetadata) → GroupOfPictures P R → List (BackendRequest P R) →
    Except RunErr (GroupOfPictures P R × List (BackendRequest P R))
  | [], s, acc => .ok ({ s with pending := [] }, acc)
  | (input, meta) :: rest, s, acc =>
    if s.l0_ref.isNone = true ∧ s.idr_ref_pending = none then
      match GroupOfPictures.request_idr { s with pending := rest } input meta with
      | .error e => .error e
      | .ok (s2, req) => GroupOfPictures.nextIPGo rest s2 (acc ++ [req])
    else if s.future_b_frames.length < s.size then
      GroupOfPictures.nextIPGo rest
        { s with pending := rest,
                 future_b_frames := s.future_b_frames ++ [(input, meta)] } acc
    else if s.l1_ref_pending = none ∧ s.l0_ref.isSome = true then
      match GroupOfPictures.request_p { s with pending := rest } input meta with
      | .error e => .error e
      | .ok (s2, req) => GroupOfPictures.nextIPGo rest s2 (acc ++ [req])
    else
      .ok ({ s with pending := (input, meta) :: rest }, acc)

/-- Model of `GroupOfPictures::next_i_p_frames`. -/
def GroupOfPictures.next_i_p_frames (s : GroupOfPictures P R)
    (acc : List (BackendRequest P R)) :
    Except RunErr (GroupOfPictures P R × List (BackendRequest P R)) :=
  GroupOfPictures.nextIPGo s.pending s acc

/-- Model of the B-emission loop in `GroupOfPictures::reconstructed`: pop every
buffered future B frame from the front and emit a B request against the old `l0_ref`
and the newly reconstructed `l1` entry. -/
def GroupOfPictures.requestBBatch :
    List (P × FrameMetadata) → GroupOfPictures P R → DpbEntry R →
    List (BackendRequest P R) →
    Except RunErr (GroupOfPictures P R × List (BackendRequest P R))
  | [], s, _, acc => .ok ({ s with future_b_frames := [] }, acc)
  | (input, meta) :: rest, s, l1, acc =>
    match GroupOfPictures.request_b { s with future_b_frames := rest } input meta l1 with
    | .error e => .error e
    | .ok (s2, req) => GroupOfPictures.requestBBatch rest s2 l1 (acc ++ [req])

/-- Model of `<GroupOfPictures as Predictor>::new_frame`. -/
def GroupOfPictures.new_frame (s : GroupOfPictures P R) (input : P)
    (frame_metadata : FrameMetadata) :
    Except RunErr (GroupOfPictures P R × PredictorVerdict P R) :=
  let s := { s with pending := s.pending ++ [(input, frame_metadata)] }
  match s.next_i_p_frames [] with
  | .error e => .error e
  | .ok (s2, reqs) =>
    .ok (s2, if reqs.isEmpty then .noOperation else .request reqs)

/-- Model of `<GroupOfPictures as Predictor>::reconstructed`: an entry matching
`idr_ref_pending` becomes `l0_ref`; an entry matching `l1_ref_pending` triggers the
B batch and then becomes `l0_ref`; any other entry is dropped; in every case the
I/P pump runs afterwards. -/
def GroupOfPictures.reconstructed (s : GroupOfPictures P R) (recon : DpbEntry R) :
    Except RunErr (GroupOfPictures P R × PredictorVerdict P R) :=
  let first :
      Except RunErr (GroupOfPictures P R × List (BackendRequest P R)) :=
    if s.idr_ref_pending = some recon.meta then
      .ok ({ s with l0_ref := some recon }, [])
    else if s.l1_ref_pending = some recon.meta then
      match GroupOfPictures.requestBBatch s.future_b_frames s recon [] with
      | .error e => .error e
      | .ok (s2, breqs) =>
        .ok ({ s2 with l0_ref := some recon, l1_ref_pending := none }, breqs)
    else
      .ok (s, [])
  match first with
  | .error e => .error e
  | .ok (s1, reqs) =>
    match s1.next_i_p_frames reqs with
    | .error e => .error e
    | .ok (s2, reqs2) =>
      .ok (s2, if reqs2.isEmpty then .noOperation else .request reqs2)

/-- Model of `<GroupOfPictures as Predictor>::drain`: fail with
`InvalidInternalState` when `l1_ref_pending` is set or no future B frame is
buffered; otherwise pop the back future B frame and re-encode it as a P. -/
def GroupOfPictures.drain (s : GroupOfPictures P R) :
    Except RunErr (GroupOfPictures P R × List (BackendRequest P R)) :=
  if s.l1_ref_pending ≠ none then .error .invalidInternalState
  else
    match s.future_b_frames.getLast? with
    | none => .error .invalidInternalState
    | some (input, meta) =>
      match GroupOfPictures.request_p
          { s with future_b_frames := s.future_b_frames.dropLast } input meta with
      | .error e => .error e
      | .ok (s2, req) => .ok ({ s2 with l1_ref_pending := some req.dpb_meta }, [req])

/-- One `Predictor` call on a `GroupOfPictures` state. -/
def GroupOfPictures.step (s : GroupOfPictures P R) : PredOp P R →
    Except RunErr (GroupOfPictures P R × List (BackendRequest P R))
  | .new_frame input meta =>
    match s.new_frame input meta with
    | .ok (s2, v) => .ok (s2, v.requestsOf)
    | .error e => .error e
  | .reconstructed e =>
    match s.reconstructed e with
    | .ok (s2, v) => .ok (s2, v.requestsOf)
    | .error e => .error e
  | .drain =>
    match s.drain with
    | .ok (s2, reqs) => .ok (s2, reqs)
    | .error e => .error e

/-- The initial `GroupOfPictures` state for given `size` and `limit`. -/
def GroupOfPictures.init (P R : Type) (size limit : Nat) : GroupOfPictures P R :=
  { poc_counter := 0, frame_counter := 0, limit := limit, size := size,
    pending := [], future_b_frames := [], l0_ref := none,
    idr_ref_pending := none, l1_ref_pending := none, sps := none, pps := none }

/-- Run a `GroupOfPictures` trace from the initial state. -/
def GroupOfPictures.run (P R : Type) (size limit : Nat) (ops : List (PredOp P R)) :
    List (BackendRequest P R × List (DpbEntry R)) × Except RunErr (GroupOfPictures P R) :=
  runPred GroupOfPictures.step (GroupOfPictures.init P R size limit) [] [] ops

/-! ## StatelessEncoder (src/src/encoder/stateless/h264.rs)

The encoder is modelled against a backend of ready promises (the crate's dummy
backend, src/src/backend/dummy/encoder.rs and src/src/encoder/stateless/h264/dummy.rs:
`import_picture` returns `Ok(())` and `encode_slice` returns two `ReadyPromise`s).
`SlicePromise::sync` produces `CodedBitstreamBuffer::new(meta, coded_data)` where
`meta` is the wrapper's stored `input_meta`; `ReferencePromise::sync` produces
`DpbEntry { recon_pic, meta: dpb_meta }` with the wrapper's stored `dpb_meta`.  The
slice bytes the backend appends to `coded_output` are not modelled; the buffer is
represented by the `coded_output` the request carried in. -/

/-- The ready coded promise filed for a submitted request (`SlicePromise` wrapping
the dummy backend's `ReadyPromise`). -/
def mkSlicePromise (r : BackendRequest Unit Unit) : MPromise CodedBitstreamBuffer :=
  { isReady := true,
    syncResult := .ok { meta := r.input_meta, bitstream := r.coded_output } }

/-- The ready reconstruction promise filed for a submitted request
(`ReferencePromise` wrapping the dummy backend's `ReadyPromise`). -/
def mkReconPromise (r : BackendRequest Unit Unit) : MPromise (DpbEntry Unit) :=
  { isReady := true, syncResult := .ok (mkReconEntry r) }

/-- Model of the `StatelessEncoder` state.  `reqLog` is a ghost field recording
every request submitted to the backend, in submission order; no operation reads it. -/
structure EncoderModel where
  output_queue : OutputQueue CodedBitstreamBuffer
  recon_queue : OutputQueue (DpbEntry Unit)
  predictor : LowDelay Unit Unit
  coded_queue : List CodedBitstreamBuffer
  predictor_frame_count : Nat
  reqLog : List (BackendRequest Unit Unit)
  deriving DecidableEq

/-- Model of `StatelessEncoder::request`: submit to the backend and file the two
wrapped promises into the output and reconstruction queues. -/
def EncoderModel.submit (s : EncoderModel) (r : BackendRequest Unit Unit) : EncoderModel :=
  { s with output_queue := s.output_queue.add_promise (mkSlicePromise r),
           recon_queue := s.recon_queue.add_promise (mkReconPromise r),
           reqLog := s.reqLog ++ [r] }

/-- The request-submission loop of `StatelessEncoder::execute`: submit each request
and decrement `predictor_frame_count` (a `usize` that would underflow at 0). -/
def EncoderModel.executeReqs (s : EncoderModel) :
    List (BackendRequest Unit Unit) → Except RunErr EncoderModel
  | [] => .ok s
  | r :: rest =>
    if s.predictor_frame_count = 0 then .error .panicArith
    else
      EncoderModel.executeReqs
        { s.submit r with predictor_frame_count := s.predictor_frame_count - 1 } rest

/-- Model of `StatelessEncoder::execute`: `false` for `NoOperation`, otherwise
submit every request and return `true`. -/
def EncoderModel.execute (s : EncoderModel) (v : PredictorVerdict Unit Unit) :
    Except RunErr (EncoderModel × Bool) :=
  match v with
  | .noOperation => .ok (s, false)
  | .request reqs =>
    match s.executeReqs reqs with
    | .error e => .error e
    | .ok s2 => .ok (s2, true)

/-- The first loop of `StatelessEncoder::poll_pending`: keep polling the coded
output queue and pushing results onto `coded_queue`. -/
def EncoderModel.codedLoop (fuel : Nat) (mode : BlockingMode) (s : EncoderModel) :
    Except RunErr EncoderModel :=
  match fuel with
  | 0 => .error .outOfFuel
  | fuel + 1 =>
    match s.output_queue.poll mode with
    | (.error e, _) => .error (.backendError e)
    | (.ok none, q2) => .ok { s with output_queue := q2 }
    | (.ok (some coded), q2) =>
      EncoderModel.codedLoop fuel mode
        { s with output_queue := q2, coded_queue := s.coded_queue ++ [coded] }

/-- The second loop of `StatelessEncoder::poll_pending`: poll the reconstruction
queue, feed each entry to the predictor and execute its verdict, stopping at the
first `NoOperation`. -/
def EncoderModel.reconLoop (fuel : Nat) (mode : BlockingMode) (s : EncoderModel) :
    Except RunErr EncoderModel :=
  match fuel with
  | 0 => .error .outOfFuel
  | fuel + 1 =>
    match s.recon_queue.poll mode with
    | (.error e, _) => .error (.backendError e)
    | (.ok none, q2) => .ok { s with recon_queue := q2 }
    | (.ok (some recon), q2) =>
      let s := { s with recon_queue := q2 }
      match s.predictor.reconstructed recon with
      | .error e => .error e
      | .ok (p2, verdict) =>
        match { s with predictor := p2 }.execute verdict with
        | .error e => .error e
        | .ok (s2, true) => EncoderModel.reconLoop fuel mode s2
        | .ok (s2, false) => .ok s2

/-- Model of `StatelessEncoder::poll_pending`. -/
def EncoderModel.poll_pending (fuel : Nat) (mode : BlockingMode) (s : EncoderModel) :
    Except RunErr EncoderModel :=
  match s.codedLoop fuel mode with
  | .error e => .error e
  | .ok s2 => s2.reconLoop fuel mode

/-- Model of `StatelessEncoder::encode` for the dummy backend (`import_picture`
returns `Ok(())`). -/
def EncoderModel.encode (s : EncoderModel) (metadata : FrameMetadata) :
    Except RunErr EncoderModel :=
  let s := { s with predictor_frame_count := s.predictor_frame_count + 1 }
  match s.predictor.new_frame () metadata with
  | .error e => .error e
  | .ok (p2, verdict) =>
    match { s with predictor := p2 }.execute verdict with
    | .error e => .error e
    | .ok (s2, _) => .ok s2

/-- The first loop of `StatelessEncoder::drain`: while the predictor holds frames or
reconstructions are pending, force the predictor to yield when both queues are empty
(for `LowDelay` this is `Err(InvalidInternalState)`), then pump in `Blocking` mode. -/
def EncoderModel.drainLoop (fuel : Nat) (s : EncoderModel) : Except RunErr EncoderModel :=
  match fuel with
  | 0 => .error .outOfFuel
  | fuel + 1 =>
    if s.predictor_frame_count ≠ 0 ∨ s.recon_queue.is_empty = false then
      let inner : Except RunErr EncoderModel :=
        if s.output_queue.is_empty = true ∧ s.recon_queue.is_empty = true then
          match s.predictor.drain with
          | .error e => .error e
          | .ok (p2, reqs) =>
            if s.predictor_frame_count < reqs.length then .error .panicArith
            else
              { s with predictor := p2,
                       predictor_frame_count := s.predictor_frame_count - reqs.length
              }.executeReqs reqs
        else .ok s
      match inner with
      | .error e => .error e
      | .ok s2 =>
        match s2.poll_pending fuel .blocking with
        | .error e => .error e
        | .ok s3 => EncoderModel.drainLoop fuel s3
    else .ok s

/-- The second loop of `StatelessEncoder::drain`: keep pumping in `Blocking` mode
while the coded output queue is non-empty. -/
def EncoderModel.outLoop (fuel : Nat) (s : EncoderModel) : Except RunErr EncoderModel :=
  match fuel with
  | 0 => .error .outOfFuel
  | fuel + 1 =>
    if s.output_queue.is_empty = false then
      match s.poll_pending fuel .blocking with
      | .error e => .error e
      | .ok s2 => EncoderModel.outLoop fuel s2
    else .ok s

/-- Model of `StatelessEncoder::drain`. -/
def EncoderModel.drain (fuel : Nat) (s : EncoderModel) : Except RunErr EncoderModel :=
  match s.drainLoop fuel with
  | .error e => .error e
  | .ok s2 => s2.outLoop fuel

/-- Model of `StatelessEncoder::poll`: pump without blocking, then pop the front of
the coded buffer queue. -/
def EncoderModel.poll (fuel : Nat) (s : EncoderModel) :
    Except RunErr (Option CodedBitstreamBuffer × EncoderModel) :=
  match s.poll_pending fuel .nonBlocking with
  | .error e => .error e
  | .ok s2 =>
    match s2.coded_queue with
    | [] => .ok (none, s2)
    | c :: rest => .ok (some c, { s2 with coded_queue := rest })

/-- Model of `StatelessEncoder::new`: the source matches `config.pred_structure`
with a single `PredictionStructure::LowDelay { .. }` arm (building a `LowDelay`
predictor); there is no arm, and hence no code path, constructing a
`GroupOfPictures` predictor, so no encoder exists for such a config. -/
def StatelessEncoder.new (config : EncoderConfig) (mode : BlockingMode) :
    Option EncoderModel :=
  match config.pred_structure with
  | .lowDelay tail limit =>
    some { output_queue := OutputQueue.new mode, recon_queue := OutputQueue.new mode,
           predictor := LowDelay.init tail limit, coded_queue := [],
           predictor_frame_count := 0, reqLog := [] }
  | .groupOfPictures _ _ => none

/-- Feed a list of frames through `encode` in order. -/
def EncoderModel.encodeAll (s : EncoderModel) :
    List FrameMetadata → Except RunErr EncoderModel
  | [] => .ok s
  | m :: rest =>
    match s.encode m with
    | .error e => .error e
    | .ok s2 => s2.encodeAll rest

/-- Call `poll` repeatedly until it yields `None`, collecting the buffers. -/
def EncoderModel.pollAll (fuel : Nat) (s : EncoderModel)
    (acc : List CodedBitstreamBuffer) : Except RunErr (List CodedBitstreamBuffer) :=
  match fuel with
  | 0 => .error .outOfFuel
  | fuel + 1 =>
    match s.poll fuel with
    | .error e => .error e
    | .ok (none, _) => .ok acc
    | .ok (some c, s2) => s2.pollAll fuel (acc ++ [c])

/-- The client scenario of claim C1: construct the encoder, `encode` every frame,
`drain`, then `poll` repeatedly. -/
def encoderRun (config : EncoderConfig) (mode : BlockingMode)
    (metas : List FrameMetadata) (fuel : Nat) :
    Except RunErr (List CodedBitstreamBuffer) :=
  match StatelessEncoder.new config mode with
  | none => .error .panicMatch
  | some s =>
    match s.encodeAll metas with
    | .error e => .error e
    | .ok s2 =>
      match s2.drain fuel with
      | .error e => .error e
      | .ok s3 => s3.pollAll fuel []

/-- The shape of the `i`-th request emitted by a `LowDelay` predictor in a
synchronous, force-keyframe-free run: an IDR exactly when `i` is a multiple of
`limit`, and otherwise a P frame whose `frame_num`, `poc`, reference mode, empty
`ref_list_1`/`coded_output` and `ref_list_0` length are determined by the
in-sequence counter `i % limit`. -/
def ldReqProp (tail limit i : Nat) (m : FrameMetadata)
    (r : BackendRequest Unit Unit) : Prop :=
  r.input_meta = m ∧
  (r.is_idr = true ↔ i % limit = 0) ∧
  (r.is_idr = false →
    r.dpb_meta.frame_num = i % limit ∧
    r.dpb_meta.poc = (i % limit) * 2 ∧
    r.dpb_meta.is_reference = .shortTerm ∧
    r.ref_list_1 = [] ∧ r.coded_output = [] ∧
    r.ref_list_0.length = min (i % limit) tail)

/-- Reference-validity of a single request (claim C3): IDRs carry no references, a
non-IDR has a non-empty `ref_list_0`, and every referenced entry was delivered. -/
def reqRefsOk (r : BackendRequest P R) (d : List (DpbEntry R)) : Prop :=
  (r.is_idr = true → r.ref_list_0 = [] ∧ r.ref_list_1 = []) ∧
  (r.is_idr = false → r.ref_list_0 ≠ []) ∧
  (∀ e ∈ r.ref_list_0 ++ r.ref_list_1, e ∈ d)

/-- Shape of a B request (claim C7): a request with a non-empty `ref_list_1` is a
non-reference B slice whose `frame_num` is one more than its anchoring P's, with
singleton reference lists. -/
def bReqShape (r : BackendRequest P R) : Prop :=
  r.ref_list_1 ≠ [] →
    r.dpb_meta.is_reference = .no ∧
    (∃ l1, r.ref_list_1 = [l1] ∧ r.dpb_meta.frame_num = l1.meta.frame_num + 1) ∧
    (∃ l0, r.ref_list_0 = [l0])

/-- POC interpolation of a B request (claim C6): its POC lies strictly between the
POC of its `ref_list_0` anchor and the POC of its `ref_list_1` anchor. -/
def bPocBetween (r : BackendRequest P R) : Prop :=
  ∀ e0 ∈ r.ref_list_0, ∀ e1 ∈ r.ref_list_1,
    e0.meta.poc < r.dpb_meta.poc ∧ r.dpb_meta.poc < e1.meta.poc

/-- Bookkeeping invariant of a `GroupOfPictures` state, relative to the entries
delivered so far: the `l0` anchor was delivered, at most `size` future B frames are
buffered, and while a P is outstanding the frame counter is one past its
`frame_num`. -/
def GopInvA (s : GroupOfPictures P R) (d : List (DpbEntry R)) : Prop :=
  (∀ e, s.l0_ref = some e → e ∈ d) ∧
  s.future_b_frames.length ≤ s.size ∧
  (∀ m, s.l1_ref_pending = some m → s.frame_counter = m.frame_num + 1)

/-- POC-ordering invariant of a `GroupOfPictures` state; it holds on every state
reachable without `drain` (a `drain` shortens the buffered-B run and breaks the
counter/POC phase relation). -/
def GopInvB (s : GroupOfPictures P R) : Prop :=
  (∀ m, s.idr_ref_pending = some m → m.poc = 0 ∧ 1 ≤ s.poc_counter) ∧
  (∀ m, s.l1_ref_pending = some m →
    m.poc = 2 * (s.poc_counter - 1 + s.size) ∧ 2 ≤ s.poc_counter ∧
    s.future_b_frames.length = s.size ∧
    (∀ e, s.l0_ref = some e → e.meta.poc < 2 * (s.poc_counter - 1))) ∧
  (s.l1_ref_pending = none → ∀ e, s.l0_ref = some e → e.meta.poc < 2 * s.poc_counter)

/-! ## Concrete inputs used by witnesses and counterexamples -/

/-- A frame metadata value with the given timestamp and keyframe flag. -/
def mkMeta (ts : Nat) (fk : Bool) : FrameMetadata :=
  { display_resolution := { width := 320, height := 240 }, layout := 0,
    force_keyframe := fk, timestamp := ts }

/-- An encoder config with the given prediction structure (other fields are the
crate's defaults). -/
def mkConfig (ps : PredictionStructure) : EncoderConfig :=
  { framerate := 30, resolution := { width := 320, height := 240 },
    pred_structure := ps, default_qp := 26 }

/-- A reconstructed DPB entry with the given metadata (as the encoder would deliver
for a request with that `dpb_meta`). -/
def mkEntry (poc frame_num : Nat) (r : IsReference) : DpbEntry Unit :=
  { recon_pic := (), meta := { poc := poc, frame_num := frame_num, is_reference := r } }

/-- Trace for C10's `tail = 0` half: an IDR frame, a second pending frame, then the
IDR's reconstruction — which reaches `request_interframe` and the underflowing
eviction bound. -/
def c10trace : List (PredOp Unit Unit) :=
  [ .new_frame () (mkMeta 0 false), .new_frame () (mkMeta 1 false),
    .reconstructed (mkEntry 0 0 .shortTerm) ]

/-- Trace for C5's counterexample: frame 0 (IDR), frame 1 forcing a keyframe (second
IDR emitted while the first reconstruction is still outstanding), both
reconstructions delivered in submission order, then a plain frame 2.  The frame-2 P
request is emitted at in-sequence counter 1 with both delivered entries still in the
DPB. -/
def c5trace : List (PredOp Unit Unit) :=
  [ .new_frame () (mkMeta 0 false), .new_frame () (mkMeta 1 true),
    .reconstructed (mkEntry 0 0 .shortTerm),
    .reconstructed (mkEntry 0 0 .shortTerm),
    .new_frame () (mkMeta 2 false) ]

/-- Trace for C6's counterexample (GroupOfPictures, `size = 2`, `limit = 16`):
close the first GOP with `drain()` (one buffered B left), deliver the drain-P's
reconstruction, then continue with three more frames and deliver the second P's
reconstruction.  The first B of the continued GOP receives POC 6, equal to the POC
of its `ref_list_0` anchor. -/
def c6trace : List (PredOp Unit Unit) :=
  [ .new_frame () (mkMeta 0 false), .reconstructed (mkEntry 0 0 .shortTerm),
    .new_frame () (mkMeta 1 false), .new_frame () (mkMeta 2 false), .drain,
    .reconstructed (mkEntry 6 1 .shortTerm),
    .new_frame () (mkMeta 3 false), .new_frame () (mkMeta 4 false),
    .new_frame () (mkMeta 5 false),
    .reconstructed (mkEntry 10 2 .shortTerm) ]

/-- Trace for C7's counterexample (GroupOfPictures, `size = 1`, `limit = 16`): IDR,
its reconstruction, one buffered B frame, a P frame, then the P's reconstruction,
which emits the B with `frame_num = 2` while its anchoring P has `frame_num = 1`. -/
def c7trace : List (PredOp Unit Unit) :=
  [ .new_frame () (mkMeta 0 false), .reconstructed (mkEntry 0 0 .shortTerm),
    .new_frame () (mkMeta 1 false), .new_frame () (mkMeta 2 false),
    .reconstructed (mkEntry 4 1 .shortTerm) ]

/-- Trace for C8's counterexample (GroupOfPictures, `size = 2`, `limit = 16`): an
IDR is emitted, a second frame is buffered as a future B, and `drain` is called
before the IDR reconstruction is delivered: `l1_ref_pending` is `None` and
`future_b_frames` is non-empty, yet `request_p` panics unwrapping `l0_ref`. -/
def c8trace : List (PredOp Unit Unit) :=
  [ .new_frame () (mkMeta 0 false), .new_frame () (mkMeta 1 false) ]

/-- The (request, delivered-entries) log pair produced for the first frame of a
`LowDelay{tail=3, limit=16}` run: the initial IDR, emitted before any delivery. -/
def c3wpair : BackendRequest Unit Unit × List (DpbEntry Unit) :=
  ({ input := (), input_meta := mkMeta 0 false,
     dpb_meta := { poc := 0, frame_num := 0, is_reference := .shortTerm },
     ref_list_0 := [], ref_list_1 := [], is_idr := true,
     coded_output := synthesized_headers }, [])

/-- The (request, delivered-entries) log pair of the B request emitted by the
`GroupOfPictures{size=1, limit=16}` run over `c7trace`. -/
def c7wpair : BackendRequest Unit Unit × List (DpbEntry Unit) :=
  ({ input := (), input_meta := mkMeta 1 false,
     dpb_meta := { poc := 2, frame_num := 2, is_reference := .no },
     ref_list_0 := [mkEntry 0 0 .shortTerm],
     ref_list_1 := [mkEntry 4 1 .shortTerm], is_idr := false,
     coded_output := [] },
   [mkEntry 0 0 .shortTerm, mkEntry 4 1 .shortTerm])

/-- A mid-GOP `GroupOfPictures{size=2, limit=16}` state with a delivered IDR
reconstruction as `l0_ref`, one buffered future B frame and no outstanding P:
`drain` succeeds from here. -/
def c8state : GroupOfPictures Unit Unit :=
  { poc_counter := 2, frame_counter := 2, limit := 16, size := 2,
    pending := [], future_b_frames := [((), mkMeta 5 false)],
    l0_ref := some (mkEntry 0 0 .shortTerm),
    idr_ref_pending := some { poc := 0, frame_num := 0, is_reference := .shortTerm },
    l1_ref_pending := none, sps := some (), pps := some () }

/-- The P request `c8state.drain` emits for its single buffered future B frame. -/
def c8req : BackendRequest Unit Unit :=
  { input := (), input_meta := mkMeta 5 false,
    dpb_meta := { poc := 8, frame_num := 2, is_reference := .shortTerm },
    ref_list_0 := [mkEntry 0 0 .shortTerm], ref_list_1 := [], is_idr := false,
    coded_output := [] }

/-- The state `c8state.drain` leaves behind: the buffered frame is consumed and the
emitted P is recorded in `l1_ref_pending`. -/
def c8state2 : GroupOfPictures Unit Unit :=
  { c8state with poc_counter := 3, frame_counter := 3, future_b_frames := [],
                 l1_ref_pending := some { poc := 8, frame_num := 2,
                                          is_reference := .shortTerm } }

/-- The meta-conservation invariant of the encoder model: the predictor's frame
count equals its pending-queue length, every coded promise on the output queue is a
ready `SlicePromise` for a submitted request, and the coded buffers already
collected, the coded promises still queued and the frames still pending inside the
predictor together carry, in order, exactly the metadata of the frames consumed so
far. -/
def EncInv (s : EncoderModel) (consumed : List FrameMetadata) : Prop :=
  s.predictor_frame_count = s.predictor.queue.length ∧
  ∃ pend : List (BackendRequest Unit Unit),
    s.output_queue.promises = pend.map mkSlicePromise ∧
    s.coded_queue.map (fun c => c.meta) ++ pend.map (fun r => r.input_meta) ++
      s.predictor.queue.map (fun q => q.2) = consumed

/-- The coded buffers `encoderRun` produces for two frames through
`LowDelay{tail=2, limit=16}`: the IDR carrying the synthesized headers, then the
P frame. -/
def c1out : List CodedBitstreamBuffer :=
  [{ meta := mkMeta 0 false, bitstream := synthesized_headers },
   { meta := mkMeta 1 false, bitstream := [] }]

/-! ## Theorems -/

/-- Helper: a poll that returns `Ok(None)` leaves the queue untouched. -/
theorem OutputQueue.poll_none_eq {T : Type} (q q2 : OutputQueue T) (m : BlockingMode)
    (h : q.poll m = (.ok none, q2)) : q2 = q := by
  unfold OutputQueue.poll at h
  rcases hq : q.promises with _ | ⟨o, rest⟩ <;> simp only [hq] at h
  · exact ((Prod.ext_iff.mp h).2).symm
  · split at h
    · rcases ho : o.syncResult with e | v <;>
        simp only [ho, Except.map] at h <;> exact absurd (Prod.ext_iff.mp h).1 (by simp)
    · exact ((Prod.ext_iff.mp h).2).symm

/-- Helper: a poll that surfaces `Ok(Some v)` popped the head promise, whose sync
outcome was `Ok(v)`. -/
theorem OutputQueue.poll_some_eq {T : Type} (q q2 : OutputQueue T) (m : BlockingMode)
    (v : T) (h : q.poll m = (.ok (some v), q2)) :
    ∃ o rest, q.promises = o :: rest ∧ o.syncResult = .ok v ∧
      q2 = { q with promises := rest } := by
  unfold OutputQueue.poll at h
  rcases hq : q.promises with _ | ⟨o, rest⟩ <;> simp only [hq] at h
  · exact absurd (Prod.ext_iff.mp h).1 (by simp)
  · split at h
    · obtain ⟨h1, h2⟩ := Prod.ext_iff.mp h
      refine ⟨o, rest, rfl, ?_, by simpa using h2.symm⟩
      rcases ho : o.syncResult with e | w <;> rw [ho] at h1 <;>
        simp [Except.map] at h1 <;> simp [h1]
    · exact absurd (Prod.ext_iff.mp h).1 (by simp)

/-- Helper: a poll that surfaces `Err(e)` popped the head promise, whose sync
outcome was `Err(e)`. -/
theorem OutputQueue.poll_error_eq {T : Type} (q q2 : OutputQueue T) (m : BlockingMode)
    (e : StatelessBackendError) (h : q.poll m = (.error e, q2)) :
    ∃ o rest, q.promises = o :: rest ∧ o.syncResult = .error e ∧
      q2 = { q with promises := rest } := by
  unfold OutputQueue.poll at h
  rcases hq : q.promises with _ | ⟨o, rest⟩ <;> simp only [hq] at h
  · exact absurd (Prod.ext_iff.mp h).1 (by simp)
  · split at h
    · obtain ⟨h1, h2⟩ := Prod.ext_iff.mp h
      refine ⟨o, rest, rfl, ?_, by simpa using h2.symm⟩
      rcases ho : o.syncResult with e2 | w <;> rw [ho] at h1 <;>
        simp [Except.map] at h1 <;> simp [h1]
    · exact absurd (Prod.ext_iff.mp h).1 (by simp)

/-- Helper for the FIFO property of `runQ`, generalized over the starting queue. -/
theorem runQ_fifo {T : Type} (ops : List (QOp T)) :
    ∀ q : OutputQueue T,
      (runQ q ops).1 =
        ((q.promises ++ addedOf ops).take (runQ q ops).1.length).map
          (fun p => p.syncResult) ∧
      (runQ q ops).2.promises =
        (q.promises ++ addedOf ops).drop (runQ q ops).1.length := by
  induction ops with
  | nil => intro q; simp [runQ, addedOf]
  | cons op rest ih =>
    intro q
    match op with
    | .add p =>
      have := ih (q.add_promise p)
      simpa [runQ, addedOf, OutputQueue.add_promise] using this
    | .poll m =>
      rcases hp : q.poll m with ⟨res, q2⟩
      rcases res with e | ov
      · -- sync error surfaced: the head was removed
        obtain ⟨o, prest, hqp, hsync, hq2⟩ := OutputQueue.poll_error_eq q q2 m e hp
        have := ih q2
        simp only [runQ, hp, addedOf]
        constructor
        · simpa [hqp, hq2, hsync, addedOf, List.take, List.map] using this.1
        · simpa [hqp, hq2, addedOf] using this.2
      · rcases ov with _ | v
        · -- Ok(None): queue unchanged
          have hq2 : q2 = q := OutputQueue.poll_none_eq q q2 m hp
          have := ih q
          simp only [runQ, hp, addedOf]
          rw [hq2]
          exact this
        · -- Ok(Some v)
          obtain ⟨o, prest, hqp, hsync, hq2⟩ := OutputQueue.poll_some_eq q q2 m v hp
          have := ih q2
          simp only [runQ, hp, addedOf]
          constructor
          · simpa [hqp, hq2, hsync, addedOf, List.take, List.map] using this.1
          · simpa [hqp, hq2, addedOf] using this.2

/-- C2: `OutputQueue::poll` behaviour and FIFO discipline.  (1) An empty queue polls
to `Ok(None)` with the queue unchanged.  (2) With `block = (constructor mode ==
Blocking) || (argument mode == Blocking)`, if `block` holds or the head promise is
ready, the head is removed and `Ok(Some(head.sync()))` is returned, a sync error
propagating with the head already removed.  (3) Otherwise the head stays and
`Ok(None)` is returned.  (4) Over any sequence of `add_promise`/`poll` operations
from a fresh queue, the surfaced results are exactly the sync outcomes of the first
k added promises in submission order, and the promises still queued are exactly the
remaining suffix — so a later-added promise's result is never returned while an
earlier-added promise is still queued. -/
theorem c2_output_queue_fifo :
    (∀ (T : Type) (q : OutputQueue T) (mode : BlockingMode),
      q.promises = [] → q.poll mode = (.ok none, q)) ∧
    (∀ (T : Type) (q : OutputQueue T) (mode : BlockingMode) o rest,
      q.promises = o :: rest →
      ((q.blocking = .blocking ∨ mode = .blocking) ∨ o.isReady = true) →
      q.poll mode = (o.syncResult.map some, { q with promises := rest })) ∧
    (∀ (T : Type) (q : OutputQueue T) (mode : BlockingMode) o rest,
      q.promises = o :: rest →
      q.blocking ≠ .blocking → mode ≠ .blocking → o.isReady = false →
      q.poll mode = (.ok none, q)) ∧
    (∀ (T : Type) (mode : BlockingMode) (ops : List (QOp T)),
      (runQ (OutputQueue.new mode) ops).1 =
        ((addedOf ops).take (runQ (OutputQueue.new mode) ops).1.length).map
          (fun p => p.syncResult) ∧
      (runQ (OutputQueue.new mode) ops).2.promises =
        (addedOf ops).drop (runQ (OutputQueue.new mode) ops).1.length) := by
  refine ⟨?_, ?_, ?_, ?_⟩
  · intro T q mode h
    unfold OutputQueue.poll
    simp [h]
  · intro T q mode o rest h hb
    unfold OutputQueue.poll
    rcases hb with hb | hb
    · rcases hb with hb | hb <;> simp [h, hb]
    · simp [h, hb]
  · intro T q mode o rest h hb hm hr
    unfold OutputQueue.poll
    simp [h, hb, hm, hr]
  · intro T mode ops
    simpa [OutputQueue.new] using runQ_fifo ops (OutputQueue.new mode)

/-- C2 witness: a concrete two-promise queue where the second promise is ready
first, yet a non-blocking poll returns nothing until the first is ready, and a
blocking run surfaces both results in submission order. -/
theorem c2_output_queue_fifo_witness :
    (OutputQueue.poll (T := Nat)
        { blocking := .nonBlocking,
          promises := [{ isReady := false, syncResult := .ok 10 },
                       { isReady := true, syncResult := .ok 20 }] } .nonBlocking =
      (.ok none,
        { blocking := .nonBlocking,
          promises := [{ isReady := false, syncResult := .ok 10 },
                       { isReady := true, syncResult := .ok 20 }] })) ∧
    ((runQ (OutputQueue.new (T := Nat) .blocking)
        [.add { isReady := false, syncResult := .ok 10 },
         .add { isReady := true, syncResult := .ok 20 },
         .poll .nonBlocking, .poll .nonBlocking]).1 = [.ok 10, .ok 20]) := by
  constructor
  · exact c2_output_queue_fifo.2.2.1 Nat _ .nonBlocking _ _ rfl (by decide) (by decide)
      (by decide)
  · have := (c2_output_queue_fifo.2.2.2 Nat .blocking
      [.add { isReady := false, syncResult := .ok 10 },
       .add { isReady := true, syncResult := .ok 20 },
       .poll .nonBlocking, .poll .nonBlocking]).1
    simpa [runQ, addedOf, OutputQueue.new, OutputQueue.add_promise, OutputQueue.poll,
      Except.map] using this

/-- C9: `StatelessEncoder::new` matches only the `PredictionStructure::LowDelay`
variant when constructing its predictor; an encoder exists for a config exactly when
its prediction structure is `LowDelay`, and no encoder can be created with
`pred_structure = GroupOfPictures`. -/
theorem c9_encoder_only_low_delay :
    ∀ (config : EncoderConfig) (mode : BlockingMode),
      (StatelessEncoder.new config mode).isSome ↔
        ∃ tail limit, config.pred_structure = .lowDelay tail limit := by
  intro config mode
  unfold StatelessEncoder.new
  rcases h : config.pred_structure with ⟨tail, limit⟩ | ⟨size, limit⟩
  · simp [h]
  · simp [h]

/-- Inversion of a successful `LowDelay::next_request`: the limit is non-zero and
the call took exactly one of the four paths (empty queue, IDR, starvation, P frame),
with the stated resulting state and verdict. -/
theorem LowDelay.next_request_cases {P R : Type} (s s2 : LowDelay P R)
    (v : PredictorVerdict P R) (h : s.next_request = .ok (s2, v)) :
    s.limit ≠ 0 ∧
    ((s.queue = [] ∧ s2 = { s with counter := s.counter % s.limit } ∧ v = .noOperation) ∨
     (∃ input meta rest, s.queue = (input, meta) :: rest ∧
       (((s.counter % s.limit = 0 ∨ meta.force_keyframe = true) ∧
          s2 = { s with counter := 1, queue := rest, dpb := [],
                        sps := some (), pps := some () } ∧
          v = .request [{ input := input
                          input_meta := meta
                          dpb_meta := { poc := 0, frame_num := 0, is_reference := .shortTerm }
                          ref_list_0 := []
                          ref_list_1 := []
                          is_idr := true
                          coded_output := synthesized_headers }]) ∨
        (¬(s.counter % s.limit = 0 ∨ meta.force_keyframe = true) ∧
          (s.dpb.isEmpty = true ∨ s.dpb.length < min (s.counter % s.limit) s.tail) ∧
          s2 = { s with counter := s.counter % s.limit } ∧ v = .noOperation) ∨
        (¬(s.counter % s.limit = 0 ∨ meta.force_keyframe = true) ∧
          ¬(s.dpb.isEmpty = true ∨ s.dpb.length < min (s.counter % s.limit) s.tail) ∧
          s.sps = some () ∧ s.pps = some () ∧
          (s.counter % s.limit) * 2 < 65536 ∧ s.counter % s.limit + 1 < 65536 ∧
          s.tail ≠ 0 ∧
          s2 = { s with counter := s.counter % s.limit + 1, queue := rest,
                        dpb := evictFront s.dpb (s.tail - 1) } ∧
          v = .request [{ input := input
                          input_meta := meta
                          dpb_meta := { poc := (s.counter % s.limit) * 2
                                        frame_num := s.counter % s.limit
                                        is_reference := .shortTerm }
                          ref_list_0 := s.dpb.reverse
                          ref_list_1 := []
                          is_idr := false
                          coded_output := [] }])))) := by
  unfold LowDelay.next_request at h
  by_cases hl : s.limit = 0
  · simp [hl] at h
  refine ⟨hl, ?_⟩
  rw [if_neg hl] at h
  rcases hq : s.queue with _ | ⟨⟨input, meta⟩, rest⟩ <;> simp only [hq] at h
  · left
    refine ⟨rfl, ?_, ?_⟩ <;> simp only [Except.ok.injEq, Prod.mk.injEq] at h
    · exact h.1.symm
    · exact h.2.symm
  · right
    refine ⟨input, meta, rest, rfl, ?_⟩
    by_cases hc : s.counter % s.limit = 0 ∨ meta.force_keyframe = true
    · left
      refine ⟨hc, ?_⟩
      rw [if_pos (by simpa using hc)] at h
      unfold LowDelay.request_idr LowDelay.new_sequence at h
      simp only [chkU16] at h
      norm_num at h
      exact ⟨h.1.symm, h.2.symm⟩
    · rw [if_neg (by simpa using hc)] at h
      by_cases hst : s.dpb.isEmpty = true ∨ s.dpb.length < min (s.counter % s.limit) s.tail
      · right; left
        rw [if_pos hst] at h
        simp only [Except.ok.injEq, Prod.mk.injEq] at h
        exact ⟨hc, hst, h.1.symm, h.2.symm⟩
      · right; right
        rw [if_neg hst] at h
        rcases hlast : s.dpb.getLast? with _ | e <;> simp only [hlast] at h
        · cases h
        · split at h
          · unfold LowDelay.request_interframe at h
            rcases hsps : s.sps with _ | u
            · simp [hsps] at h
            rcases hpps : s.pps with _ | u2
            · simp [hsps, hpps] at h
            simp only [hsps, hpps] at h
            split at h
            · next hpoc =>
              split at h
              · next hctr =>
                split at h
                · next htail => cases h
                · next htail =>
                  simp only [Except.ok.injEq, Prod.mk.injEq] at h
                  refine ⟨hc, hst, by simp [hsps], by simp [hpps], hpoc, hctr, htail,
                    ?_, h.2.symm⟩
                  rw [← h.1]
              · next hctr => cases h
            · next hpoc => cases h
          · cases h

/-- C10: the DPB eviction in `request_interframe`.  For `tail ≥ 1` (given the
SPS/PPS are initialized and the `u16` counter arithmetic is in range, as on every
reachable P emission) the eviction bound `tail as usize - 1` does not underflow, the
call succeeds, and the loop leaves at most `tail - 1` entries in the DPB.  For
`tail = 0`, the concrete trace frame/frame/reconstruction reaches a P-frame emission
(the starvation guard compares the DPB size against `min(counter, 0) = 0`) and the
`usize` subtraction `0 - 1` underflows: the run aborts with the arithmetic panic. -/
theorem c10_eviction_underflow :
    (∀ (P R : Type) (s : LowDelay P R) (input : P) (input_meta : FrameMetadata),
      1 ≤ s.tail → s.sps = some () → s.pps = some () →
      s.counter * 2 < 65536 → s.counter + 1 < 65536 →
      ∃ s2 v, s.request_interframe input input_meta = .ok (s2, v) ∧
        s2.dpb.length ≤ s.tail - 1) ∧
    (LowDelay.run Unit Unit 0 16 c10trace).2 = .error .panicArith := by
  constructor
  · intro P R s input input_meta htail hsps hpps hpoc hctr
    unfold LowDelay.request_interframe
    rw [hsps, hpps]
    simp only [chkU16, if_pos hpoc, if_pos hctr]
    rw [if_neg (by omega)]
    refine ⟨_, _, rfl, ?_⟩
    simp only [evictFront, List.length_drop]
    omega
  · decide

/-- C10 witness: at a concrete state with `tail = 3` and four DPB entries the call
succeeds and leaves two entries. -/
theorem c10_eviction_underflow_witness :
    ∃ s2 v,
      LowDelay.request_interframe (P := Unit) (R := Unit)
        { counter := 4, limit := 16, tail := 3, queue := [],
          dpb := [mkEntry 2 1 .shortTerm, mkEntry 4 2 .shortTerm, mkEntry 6 3 .shortTerm,
                  mkEntry 0 0 .shortTerm],
          sps := some (), pps := some () } () (mkMeta 9 false) = .ok (s2, v) ∧
      s2.dpb.length ≤ 3 - 1 := by
  exact c10_eviction_underflow.1 Unit Unit _ () (mkMeta 9 false) (by decide) rfl rfl
    (by decide) (by decide)

/-- Helper: predecessor under a modulus. -/
theorem mod_pred {n l c : Nat} (h : n % l = c) (hc : 1 ≤ c) : (n - 1) % l = c - 1 := by
  rcases Nat.eq_zero_or_pos l with hl | hl
  · subst hl; simp at h ⊢; omega
  · have hlt : c < l := h ▸ Nat.mod_lt n hl
    have hq := Nat.div_add_mod n l
    have hn1 : n - 1 = (c - 1) + l * (n / l) := by omega
    rw [hn1, Nat.add_mul_mod_self_left]
    exact Nat.mod_eq_of_lt (by omega)

/-- Helper: successor under a modulus. -/
theorem mod_succ_eq (n l : Nat) : (n % l + 1) % l = (n + 1) % l := by
  conv_rhs => rw [Nat.add_mod]
  simp [Nat.add_mod]

/-- Helper: the length left by `evictFront`. -/
theorem evictFront_length (l : List α) (k : Nat) :
    (evictFront l k).length = min k l.length := by
  simp [evictFront, List.length_drop]
  omega

/-- Specification of a synchronous force-keyframe-free `LowDelay` run: starting from
a reachable steady state after `n` frames, every further frame emits exactly one
request, and the request for the `n + i`-th frame satisfies `ldReqProp` at index
`n + i`. -/
theorem ld_syncRun_spec (tail limit fuel : Nat) (htail : 1 ≤ tail) :
    ∀ (metas : List FrameMetadata) (n : Nat) (s : LowDelay Unit Unit)
      (log : List (BackendRequest Unit Unit)) (sF : LowDelay Unit Unit)
      (logF : List (BackendRequest Unit Unit)),
      (∀ m ∈ metas, m.force_keyframe = false) →
      s.limit = limit → s.tail = tail → s.queue = [] →
      s.counter = n % limit →
      s.dpb.length = (if n = 0 then 0 else min ((n - 1) % limit + 1) tail) →
      LowDelay.syncRun fuel s metas log = .ok (sF, logF) →
      ∃ newLog, logF = log ++ newLog ∧
        List.Forall₂ (fun (p : Nat × FrameMetadata) r => ldReqProp tail limit p.1 p.2 r)
          ((List.range' n metas.length).zip metas) newLog := by
  intro metas
  induction metas with
  | nil =>
    intro n s log sF logF _ _ _ _ _ _ hrun
    unfold LowDelay.syncRun at hrun
    simp only [Except.ok.injEq, Prod.mk.injEq] at hrun
    exact ⟨[], by simp [hrun.2.symm], by simp [List.range']⟩
  | cons m rest ih =>
    intro n s log sF logF hforce hlim htl hq hctr hdpb hrun
    unfold LowDelay.syncRun at hrun
    rcases hnf : s.new_frame () m with e | ⟨s2, v⟩
    · rw [hnf] at hrun; cases hrun
    rw [hnf] at hrun
    dsimp only at hrun
    have hqq : s.queue ++ [((), m)] = [((), m)] := by rw [hq]; rfl
    have hnr : LowDelay.next_request
        (⟨s.counter, s.limit, s.tail, [((), m)], s.dpb, s.sps, s.pps⟩ :
          LowDelay Unit Unit) = .ok (s2, v) := by
      rw [← hqq]; exact hnf
    obtain ⟨hlim0, hcases⟩ := LowDelay.next_request_cases _ s2 v hnr
    dsimp only at hlim0 hcases
    have hlimit0 : limit ≠ 0 := by rw [← hlim]; exact hlim0
    have hmm : s.counter % s.limit = n % limit := by
      rw [hlim, hctr, Nat.mod_mod_of_dvd n (dvd_refl limit)]
    rcases hcases with ⟨hqnil, _, _⟩ | ⟨input, meta, rest2, hq1, hbr⟩
    · simp at hqnil
    obtain ⟨hinp, hmeta, hrest2⟩ : () = input ∧ m = meta ∧ [] = rest2 := by
      have h2 : ((), m) = (input, meta) ∧ [] = rest2 := by
        have h3 := hq1
        simp only [List.cons.injEq] at h3
        exact h3
      exact ⟨congrArg Prod.fst h2.1, congrArg Prod.snd h2.1, h2.2⟩
    subst hinp; subst hrest2
    have hmf : meta.force_keyframe = false := hmeta ▸ hforce m (by simp)
    rcases hbr with ⟨hcond, hs2, hv⟩ | ⟨hcne, hstarve, _, _⟩ | hintf
    · -- IDR branch: the in-sequence counter is 0
      have hc0' : n % limit = 0 := by
        rw [← hmm]
        rcases hcond with hcond | hcond
        · exact hcond
        · rw [hmf] at hcond; cases hcond
      set req : BackendRequest Unit Unit :=
        { input := ()
          input_meta := meta
          dpb_meta := { poc := 0, frame_num := 0, is_reference := .shortTerm }
          ref_list_0 := []
          ref_list_1 := []
          is_idr := true
          coded_output := synthesized_headers } with hreq
      rcases fuel with _ | fk
      · rw [hv] at hrun
        simp [LowDelay.syncDeliver, PredictorVerdict.requestsOf] at hrun
      have hrec : LowDelay.reconstructed
          (⟨1, s.limit, s.tail, [], [], some (), some ()⟩ : LowDelay Unit Unit)
          (mkReconEntry req) =
          .ok (⟨1 % s.limit, s.limit, s.tail, [], [mkReconEntry req],
                some (), some ()⟩,
               .noOperation) := by
        unfold LowDelay.reconstructed LowDelay.next_request
        dsimp only
        rw [if_neg hlim0]
        simp only [List.nil_append]
      rcases fk with _ | fk2
      · rw [hv, hs2] at hrun
        simp only [LowDelay.syncDeliver, PredictorVerdict.requestsOf] at hrun
        rw [hrec] at hrun
        simp [LowDelay.syncDeliver] at hrun
      rw [hv, hs2] at hrun
      simp only [LowDelay.syncDeliver, PredictorVerdict.requestsOf] at hrun
      rw [hrec] at hrun
      simp only [LowDelay.syncDeliver, List.append_nil, List.nil_append] at hrun
      obtain ⟨newLog, hlogF, hfa⟩ := ih (n + 1) _ _ sF logF
        (fun x hx => hforce x (by simp [hx]))
        (by exact hlim) (by exact htl) (by exact rfl)
        (by
          show 1 % s.limit = (n + 1) % limit
          rw [hlim, ← mod_succ_eq n limit, hc0'])
        (by dsimp only; simp; omega)
        hrun
      refine ⟨req :: newLog, by simp [hlogF], ?_⟩
      have hr : List.range' n (rest.length + 1) = n :: List.range' (n + 1) rest.length := by
        rw [List.range'_succ]
      simp only [List.length_cons, hr, List.zip_cons_cons]
      refine List.Forall₂.cons ?_ hfa
      refine ⟨by rw [hreq, hmeta], by rw [hreq]; simp [hc0'], ?_⟩
      rw [hreq]
      intro hcontra
      cases hcontra
    · -- starvation is impossible in the synchronous steady state
      exfalso
      have hcnz : n % limit ≠ 0 := by
        intro h0
        exact hcne (Or.inl (by rw [hmm, h0]))
      have hnz : n ≠ 0 := by intro h0; rw [h0] at hcnz; simp at hcnz
      have hlen : s.dpb.length = min (n % limit) tail := by
        rw [hdpb, if_neg hnz]
        have hmp := mod_pred (c := n % limit) (l := limit) (n := n) rfl (by omega)
        rw [hmp]
        congr 1
        omega
      rw [hmm, htl] at hstarve
      rcases hstarve with hemp | hlt
      · rw [List.isEmpty_iff] at hemp
        rw [hemp] at hlen
        simp at hlen
        omega
      · rw [hlen] at hlt
        omega
    · -- P-frame branch
      obtain ⟨hcne, hnst, hsps, hpps, hpoc, hctr2, htl0, hs2, hv⟩ := hintf
      have hcnz : n % limit ≠ 0 := by
        intro h0
        exact hcne (Or.inl (by rw [hmm, h0]))
      have hnz : n ≠ 0 := by intro h0; rw [h0] at hcnz; simp at hcnz
      have hlen : s.dpb.length = min (n % limit) tail := by
        rw [hdpb, if_neg hnz]
        have hmp := mod_pred (c := n % limit) (l := limit) (n := n) rfl (by omega)
        rw [hmp]
        congr 1
        omega
      set req : BackendRequest Unit Unit :=
        { input := ()
          input_meta := meta
          dpb_meta := { poc := s.counter % s.limit * 2
                        frame_num := s.counter % s.limit
                        is_reference := .shortTerm }
          ref_list_0 := s.dpb.reverse
          ref_list_1 := []
          is_idr := false
          coded_output := [] } with hreq
      rcases fuel with _ | fk
      · rw [hv] at hrun
        simp [LowDelay.syncDeliver, PredictorVerdict.requestsOf] at hrun
      have hrec : LowDelay.reconstructed
          (⟨s.counter % s.limit + 1, s.limit, s.tail, [],
            evictFront s.dpb (s.tail - 1), s.sps, s.pps⟩ : LowDelay Unit Unit)
          (mkReconEntry req) =
          .ok (⟨(s.counter % s.limit + 1) % s.limit, s.limit, s.tail, [],
                evictFront s.dpb (s.tail - 1) ++ [mkReconEntry req],
                s.sps, s.pps⟩,
               .noOperation) := by
        unfold LowDelay.reconstructed LowDelay.next_request
        dsimp only
        rw [if_neg hlim0]
      rcases fk with _ | fk2
      · rw [hv, hs2] at hrun
        simp only [LowDelay.syncDeliver, PredictorVerdict.requestsOf] at hrun
        rw [hrec] at hrun
        simp [LowDelay.syncDeliver] at hrun
      rw [hv, hs2] at hrun
      simp only [LowDelay.syncDeliver, PredictorVerdict.requestsOf] at hrun
      rw [hrec] at hrun
      simp only [LowDelay.syncDeliver, List.append_nil, List.nil_append] at hrun
      obtain ⟨newLog, hlogF, hfa⟩ := ih (n + 1) _ _ sF logF
        (fun x hx => hforce x (by simp [hx]))
        (by exact hlim) (by exact htl) (by exact rfl)
        (by
          show (s.counter % s.limit + 1) % s.limit = (n + 1) % limit
          rw [hmm, hlim]
          exact mod_succ_eq n limit)
        (by
          dsimp only
          simp only [List.length_append, List.length_cons, List.length_nil,
            evictFront_length]
          rw [htl, hlen]
          rw [if_neg (by omega)]
          have hmp : (n + 1 - 1) % limit = n % limit := by simp
          rw [hmp]
          omega)
        hrun
      refine ⟨req :: newLog, by simp [hlogF], ?_⟩
      have hr : List.range' n (rest.length + 1) = n :: List.range' (n + 1) rest.length := by
        rw [List.range'_succ]
      simp only [List.length_cons, hr, List.zip_cons_cons]
      refine List.Forall₂.cons ?_ hfa
      refine ⟨by rw [hreq, hmeta], ?_, ?_⟩
      · rw [hreq]
        constructor
        · intro hcontra; cases hcontra
        · intro h0; exact absurd h0 hcnz
      · intro _
        rw [hreq]
        refine ⟨by simp [hmm], by simp [hmm], by simp, by simp, by simp, ?_⟩
        dsimp only
        simp only [List.length_reverse]
        rw [hlen]

/-- C4: IDR placement for `LowDelay`.  (1) Per emission attempt: a successful
`next_request` on a non-empty pending queue emits an IDR if and only if the
in-sequence counter taken mod `limit` is 0 or the popped frame's metadata forces a
keyframe.  (2) For a synchronous run over frames none of which forces a keyframe,
request `i` carries input frame `i`, and is an IDR exactly when `i` is a multiple of
`limit` — IDRs occur exactly at input indices `0, limit, 2·limit, …`. -/
theorem c4_idr_placement :
    (∀ (P R : Type) (s s2 : LowDelay P R) (input : P) (meta : FrameMetadata)
       (rest : List (P × FrameMetadata)) (v : PredictorVerdict P R),
      s.queue = (input, meta) :: rest →
      s.next_request = .ok (s2, v) →
      ((∃ r ∈ v.requestsOf, r.is_idr = true) ↔
        (s.counter % s.limit = 0 ∨ meta.force_keyframe = true))) ∧
    (∀ (tail limit fuel : Nat) (metas : List FrameMetadata)
       (sF : LowDelay Unit Unit) (logF : List (BackendRequest Unit Unit)),
      1 ≤ tail →
      (∀ m ∈ metas, m.force_keyframe = false) →
      LowDelay.syncRun fuel (LowDelay.init tail limit) metas [] = .ok (sF, logF) →
      logF.length = metas.length ∧
      ∀ i (h1 : i < logF.length) (h2 : i < metas.length),
        (logF.get ⟨i, h1⟩).input_meta = metas.get ⟨i, h2⟩ ∧
        ((logF.get ⟨i, h1⟩).is_idr = true ↔ i % limit = 0)) := by
  constructor
  · intro P R s s2 input meta rest v hq h
    obtain ⟨hlim0, hcases⟩ := LowDelay.next_request_cases s s2 v h
    rcases hcases with ⟨hqnil, _, _⟩ | ⟨input2, meta2, rest2, hq1, hbr⟩
    · rw [hq] at hqnil; cases hqnil
    have hm2 : meta2 = meta := by
      rw [hq] at hq1
      simp only [List.cons.injEq, Prod.mk.injEq] at hq1
      exact hq1.1.2.symm
    subst hm2
    rcases hbr with ⟨hcond, _, hv⟩ | ⟨hcne, _, _, hv⟩ | ⟨hcne, _, _, _, _, _, _, _, hv⟩
    · rw [hv]
      simp only [PredictorVerdict.requestsOf]
      constructor
      · intro _; exact hcond
      · intro _; exact ⟨_, List.mem_singleton_self _, rfl⟩
    · rw [hv]
      simp only [PredictorVerdict.requestsOf]
      constructor
      · rintro ⟨r, hr, _⟩; cases hr
      · intro hcond; exact absurd hcond hcne
    · rw [hv]
      simp only [PredictorVerdict.requestsOf]
      constructor
      · rintro ⟨r, hr, hidr⟩
        simp only [List.mem_singleton] at hr
        rw [hr] at hidr
        cases hidr
      · intro hcond; exact absurd hcond hcne
  · intro tail limit fuel metas sF logF htail hforce hrun
    obtain ⟨newLog, hlog, hfa⟩ :=
      ld_syncRun_spec tail limit fuel htail metas 0 (LowDelay.init tail limit) []
        sF logF hforce rfl rfl rfl (by simp [LowDelay.init]) (by simp [LowDelay.init])
        hrun
    rw [List.nil_append] at hlog
    subst hlog
    rw [List.forall₂_iff_get] at hfa
    have hzlen : ((List.range' 0 metas.length).zip metas).length = metas.length := by
      simp
    constructor
    · rw [← hfa.1, hzlen]
    · intro i h1 h2
      have hi : i < ((List.range' 0 metas.length).zip metas).length := by
        rw [hzlen]; exact h2
      have := hfa.2 i hi h1
      rw [List.get_zip] at this
      simp only [List.get_eq_getElem, List.getElem_range'] at this
      obtain ⟨ha, hb, _⟩ := this
      constructor
      · rw [List.get_eq_getElem, List.get_eq_getElem]
        simpa using ha
      · simpa using hb

/-- C4 witness: emitting the first frame from a fresh `LowDelay{tail=1, limit=4}`
state is an IDR (counter 0); and the synchronous run of four plain frames with
`limit = 2` yields IDRs exactly at indices 0 and 2. -/
theorem c4_idr_placement_witness :
    (∃ s2 v, LowDelay.next_request
        { counter := 0, limit := 4, tail := 1,
          queue := [((), mkMeta 0 false)], dpb := [], sps := none, pps := none } =
        .ok (s2, v) ∧
      ((∃ r ∈ PredictorVerdict.requestsOf (P := Unit) (R := Unit) v, r.is_idr = true) ↔
        (0 % 4 = 0 ∨ (mkMeta 0 false).force_keyframe = true))) ∧
    (∃ sF logF,
      LowDelay.syncRun 10 (LowDelay.init 1 2)
        [mkMeta 0 false, mkMeta 1 false, mkMeta 2 false, mkMeta 3 false] [] =
        .ok (sF, logF) ∧
      logF.length = 4 ∧
      ∀ i (h1 : i < logF.length),
        ((logF.get ⟨i, h1⟩).is_idr = true ↔ i % 2 = 0)) := by
  constructor
  · obtain ⟨s2, v, hok⟩ : ∃ s2 v, LowDelay.next_request
        { counter := 0, limit := 4, tail := 1,
          queue := [((), mkMeta 0 false)], dpb := [], sps := none, pps := none } =
        .ok (s2, v) := ⟨_, _, rfl⟩
    exact ⟨s2, v, hok, c4_idr_placement.1 Unit Unit _ s2 () (mkMeta 0 false) [] v rfl hok⟩
  · obtain ⟨sF, logF, hok⟩ : ∃ sF logF,
        LowDelay.syncRun 10 (LowDelay.init 1 2)
          [mkMeta 0 false, mkMeta 1 false, mkMeta 2 false, mkMeta 3 false] [] =
        .ok (sF, logF) := ⟨_, _, rfl⟩
    obtain ⟨hlen, hprops⟩ := c4_idr_placement.2 1 2 10 _ sF logF (by decide)
      (by decide) hok
    refine ⟨sF, logF, hok, by simpa using hlen, ?_⟩
    intro i h1
    exact (hprops i h1 (hlen ▸ h1)).2

/-- C5 counterexample: through the public predictor interface (two frames, the
second forcing a keyframe, then both reconstructions delivered in submission order
and a plain third frame — exactly what the encoder does when `poll` is called after
both IDRs were submitted), `LowDelay{tail=2}` emits a P request at in-sequence
counter `k = 1` (`frame_num = 1`) whose `ref_list_0` has length 2, not
`min(k, tail) = 1`: the DPB still holds the reconstruction of the pre-keyframe
sequence.  The trace itself completes without error. -/
theorem c5_ref_list_length_counterexample :
    (match (LowDelay.run Unit Unit 2 100 c5trace).2 with
      | .ok _ => true
      | .error _ => false) = true ∧
    ∃ p ∈ (LowDelay.run Unit Unit 2 100 c5trace).1,
      p.1.is_idr = false ∧ p.1.dpb_meta.frame_num = 1 ∧
      min 1 2 = 1 ∧ p.1.ref_list_0.length = 2 := by
  decide

/-- C5 (amended): a successful non-IDR emission at in-sequence counter
`k = counter % limit ≥ 1` is a P frame with `frame_num = k`, `poc = 2·k`,
`is_reference = ShortTerm`, empty `ref_list_1` and `coded_output`, and `ref_list_0`
equal to the DPB in most-recent-first order — its length is the DPB occupancy, which
equals `min(k, tail)` in synchronous runs without forced keyframes (second
conjunct); after emission the DPB holds at most `tail - 1` entries. -/
theorem c5_p_request_shape :
    (∀ (P R : Type) (s s2 : LowDelay P R) (input : P) (meta : FrameMetadata)
       (rest : List (P × FrameMetadata)) (v : PredictorVerdict P R)
       (r : BackendRequest P R),
      s.queue = (input, meta) :: rest →
      s.next_request = .ok (s2, v) →
      v.requestsOf = [r] → r.is_idr = false →
      1 ≤ s.counter % s.limit ∧
      r.dpb_meta.frame_num = s.counter % s.limit ∧
      r.dpb_meta.poc = (s.counter % s.limit) * 2 ∧
      r.dpb_meta.is_reference = .shortTerm ∧
      r.ref_list_1 = [] ∧ r.coded_output = [] ∧
      r.ref_list_0 = s.dpb.reverse ∧
      s2.dpb.length ≤ s.tail - 1) ∧
    (∀ (tail limit fuel : Nat) (metas : List FrameMetadata)
       (sF : LowDelay Unit Unit) (logF : List (BackendRequest Unit Unit)),
      1 ≤ tail →
      (∀ m ∈ metas, m.force_keyframe = false) →
      LowDelay.syncRun fuel (LowDelay.init tail limit) metas [] = .ok (sF, logF) →
      ∀ i (h1 : i < logF.length),
        (logF.get ⟨i, h1⟩).is_idr = false →
        (logF.get ⟨i, h1⟩).dpb_meta.frame_num = i % limit ∧
        (logF.get ⟨i, h1⟩).ref_list_0.length = min (i % limit) tail) := by
  constructor
  · intro P R s s2 input meta rest v r hq h hreqs hidr
    obtain ⟨hlim0, hcases⟩ := LowDelay.next_request_cases s s2 v h
    rcases hcases with ⟨hqnil, _, _⟩ | ⟨input2, meta2, rest2, hq1, hbr⟩
    · rw [hq] at hqnil; cases hqnil
    rcases hbr with ⟨_, _, hv⟩ | ⟨_, _, _, hv⟩ | hintf
    · rw [hv] at hreqs
      simp only [PredictorVerdict.requestsOf, List.cons.injEq] at hreqs
      rw [← hreqs.1] at hidr
      cases hidr
    · rw [hv] at hreqs
      simp only [PredictorVerdict.requestsOf] at hreqs
      cases hreqs
    · obtain ⟨hcne, hnst, _, _, _, _, htl0, hs2, hv⟩ := hintf
      rw [hv] at hreqs
      simp only [PredictorVerdict.requestsOf, List.cons.injEq] at hreqs
      rw [← hreqs.1]
      refine ⟨?_, rfl, rfl, rfl, rfl, rfl, rfl, ?_⟩
      · rcases Nat.eq_zero_or_pos (s.counter % s.limit) with h0 | h0
        · exact absurd (Or.inl h0) hcne
        · exact h0
      · rw [hs2]
        have := evictFront_length s.dpb (s.tail - 1)
        dsimp only
        omega
  · intro tail limit fuel metas sF logF htail hforce hrun
    obtain ⟨newLog, hlog, hfa⟩ :=
      ld_syncRun_spec tail limit fuel htail metas 0 (LowDelay.init tail limit) []
        sF logF hforce rfl rfl rfl (by simp [LowDelay.init]) (by simp [LowDelay.init])
        hrun
    rw [List.nil_append] at hlog
    subst hlog
    rw [List.forall₂_iff_get] at hfa
    intro i h1 hidr
    have hi : i < ((List.range' 0 metas.length).zip metas).length := by
      rw [← hfa.1] at h1; exact h1
    have hprop := hfa.2 i hi h1
    rw [List.get_zip] at hprop
    simp only [List.get_eq_getElem, List.getElem_range'] at hprop
    have hp := hprop.2.2 (by simpa using hidr)
    refine ⟨?_, ?_⟩
    · simpa using hp.1
    · simpa using hp.2.2.2.2.2

/-- C5 witness: the amended claim at concrete inputs.  Per-step: a concrete
`tail = 3` state at counter 2 emits a P with the stated fields.  Run-level: five
plain frames with `tail = 3, limit = 100` give `ref_list_0` lengths 1, 2, 3, 3 for
the four P frames (the spec's ramp-up example). -/
theorem c5_p_request_shape_witness :
    (∃ s2 v r,
      LowDelay.next_request
        { counter := 2, limit := 100, tail := 3,
          queue := [((), mkMeta 7 false)],
          dpb := [mkEntry 0 0 .shortTerm, mkEntry 2 1 .shortTerm],
          sps := some (), pps := some () } = .ok (s2, v) ∧
      PredictorVerdict.requestsOf (P := Unit) (R := Unit) v = [r] ∧
      r.is_idr = false ∧ r.dpb_meta.frame_num = 2 % 100 ∧
      r.ref_list_0 = [mkEntry 2 1 .shortTerm, mkEntry 0 0 .shortTerm] ∧
      s2.dpb.length ≤ 3 - 1) ∧
    (∃ sF logF,
      LowDelay.syncRun 12 (LowDelay.init 3 100)
        [mkMeta 0 false, mkMeta 1 false, mkMeta 2 false, mkMeta 3 false,
         mkMeta 4 false] [] = .ok (sF, logF) ∧
      ∀ i (h1 : i < logF.length),
        (logF.get ⟨i, h1⟩).is_idr = false →
        (logF.get ⟨i, h1⟩).ref_list_0.length = min (i % 100) 3) := by
  constructor
  · refine ⟨_, _, _, rfl, rfl, by decide, by decide, by decide, ?_⟩
    exact (c5_p_request_shape.1 Unit Unit
      { counter := 2, limit := 100, tail := 3,
        queue := [((), mkMeta 7 false)],
        dpb := [mkEntry 0 0 .shortTerm, mkEntry 2 1 .shortTerm],
        sps := some (), pps := some () } _ () (mkMeta 7 false) [] _ _
      rfl rfl rfl (by decide)).2.2.2.2.2.2.2
  · obtain ⟨sF, logF, hok⟩ : ∃ sF logF,
        LowDelay.syncRun 12 (LowDelay.init 3 100)
          [mkMeta 0 false, mkMeta 1 false, mkMeta 2 false, mkMeta 3 false,
           mkMeta 4 false] [] = .ok (sF, logF) := ⟨_, _, rfl⟩
    refine ⟨sF, logF, hok, ?_⟩
    intro i h1 hidr
    exact (c5_p_request_shape.2 3 100 12 _ sF logF (by decide) (by decide) hok
      i h1 hidr).2

/-- Generic soundness of the trace runner: if every successful step preserves the
state invariant (with the delivered list updated before the call for
`reconstructed`) and makes every emitted request satisfy `RProp` at the updated
delivered list, then every logged request satisfies `RProp` at its logged snapshot. -/
theorem runPred_log_sound {σ P R : Type}
    (step : σ → PredOp P R → Except RunErr (σ × List (BackendRequest P R)))
    (SInv : σ → List (DpbEntry R) → Prop)
    (RProp : BackendRequest P R → List (DpbEntry R) → Prop)
    (hstep : ∀ s d op s2 reqs,
      SInv s d → step s op = .ok (s2, reqs) →
      SInv s2 (match op with | .reconstructed e => d ++ [e] | _ => d) ∧
      ∀ r ∈ reqs, RProp r (match op with | .reconstructed e => d ++ [e] | _ => d)) :
    ∀ (ops : List (PredOp P R)) (s : σ) (d : List (DpbEntry R))
      (log : List (BackendRequest P R × List (DpbEntry R))),
      SInv s d → (∀ p ∈ log, RProp p.1 p.2) →
      ∀ p ∈ (runPred step s d log ops).1, RProp p.1 p.2 := by
  intro ops
  induction ops with
  | nil =>
    intro s d log _ hlog p hp
    exact hlog p (by simpa [runPred] using hp)
  | cons op rest ih =>
    intro s d log hinv hlog p hp
    unfold runPred at hp
    rcases hs : step s op with e | ⟨s2, reqs⟩
    · rw [hs] at hp
      exact hlog p hp
    · rw [hs] at hp
      dsimp only at hp
      have hres := hstep s d op s2 reqs hinv hs
      refine ih s2 _ _ hres.1 ?_ p hp
      intro q hq
      rcases List.mem_append.mp hq with hq | hq
      · exact hlog q hq
      · obtain ⟨r, hr, rfl⟩ := List.mem_map.mp hq
        exact hres.2 r hr

/-- Helper for C3 on `LowDelay`: a successful `next_request` keeps the DPB inside
the delivered set and emits only requests whose reference lists are empty for IDR,
non-empty `ref_list_0` for P, and drawn from the delivered set. -/
theorem ld_next_request_refs {P R : Type} (s s2 : LowDelay P R)
    (v : PredictorVerdict P R) (d : List (DpbEntry R))
    (hd : ∀ e ∈ s.dpb, e ∈ d) (h : s.next_request = .ok (s2, v)) :
    (∀ e ∈ s2.dpb, e ∈ d) ∧
    ∀ r ∈ v.requestsOf,
      (r.is_idr = true → r.ref_list_0 = [] ∧ r.ref_list_1 = []) ∧
      (r.is_idr = false → r.ref_list_0 ≠ []) ∧
      (∀ e ∈ r.ref_list_0 ++ r.ref_list_1, e ∈ d) := by
  obtain ⟨hlim0, hcases⟩ := LowDelay.next_request_cases s s2 v h
  rcases hcases with ⟨_, hs2, hv⟩ | ⟨input, meta, rest, hq1, hbr⟩
  · rw [hs2, hv]
    exact ⟨hd, by simp [PredictorVerdict.requestsOf]⟩
  rcases hbr with ⟨_, hs2, hv⟩ | ⟨_, _, hs2, hv⟩ | hintf
  · rw [hs2, hv]
    constructor
    · intro e he; cases he
    · intro r hr
      simp only [PredictorVerdict.requestsOf, List.mem_singleton] at hr
      rw [hr]
      refine ⟨fun _ => ⟨rfl, rfl⟩, ?_, ?_⟩
      · intro hf; simp at hf
      · intro e he; cases he
  · rw [hs2, hv]
    exact ⟨hd, by simp [PredictorVerdict.requestsOf]⟩
  · obtain ⟨_, hnst, _, _, _, _, _, hs2, hv⟩ := hintf
    rw [hs2, hv]
    constructor
    · intro e he
      dsimp only at he
      exact hd e (List.mem_of_mem_drop he)
    · intro r hr
      simp only [PredictorVerdict.requestsOf, List.mem_singleton] at hr
      rw [hr]
      refine ⟨?_, fun _ => ?_, ?_⟩
      on_goal 1 => intro hf; simp at hf
      · dsimp only
        intro hrev
        apply hnst
        left
        rw [List.isEmpty_iff]
        simpa using hrev
      · intro e he
        dsimp only at he
        rcases List.mem_append.mp he with he | he
        · exact hd e (List.mem_reverse.mp he)
        · cases he

/-- Computation of `GroupOfPictures::request_idr`: it always succeeds, resets the
sequence and emits the referenceless IDR request. -/
theorem gop_request_idr_eq (s : GroupOfPictures P R) (input : P)
    (meta : FrameMetadata) :
    s.request_idr input meta = .ok
      ({ s with frame_counter := 1, poc_counter := 1, l0_ref := none,
                idr_ref_pending := some { poc := 0, frame_num := 0,
                                          is_reference := .shortTerm },
                l1_ref_pending := none, sps := some (), pps := some () },
       { input := input
         input_meta := meta
         dpb_meta := { poc := 0, frame_num := 0, is_reference := .shortTerm }
         ref_list_0 := []
         ref_list_1 := []
         is_idr := true
         coded_output := synthesized_headers }) := by
  unfold GroupOfPictures.request_idr GroupOfPictures.new_sequence
  norm_num

/-- Inversion of a successful `GroupOfPictures::request_p`. -/
theorem gop_request_p_inv (s s2 : GroupOfPictures P R) (input : P)
    (meta : FrameMetadata) (req : BackendRequest P R)
    (h : s.request_p input meta = .ok (s2, req)) :
    ∃ l0, s.l0_ref = some l0 ∧ s.sps = some () ∧ s.pps = some () ∧
      req = { input := input
              input_meta := meta
              dpb_meta := { poc := (s.poc_counter + s.size) * 2
                            frame_num := s.frame_counter
                            is_reference := .shortTerm }
              ref_list_0 := [l0]
              ref_list_1 := []
              is_idr := false
              coded_output := [] } ∧
      s2 = { s with l1_ref_pending := some { poc := (s.poc_counter + s.size) * 2
                                             frame_num := s.frame_counter
                                             is_reference := .shortTerm }
                    poc_counter := s.poc_counter + 1
                    frame_counter := s.frame_counter + 1 } := by
  unfold GroupOfPictures.request_p at h
  rcases hsps : s.sps with _ | u
  · simp [hsps] at h
  rcases hpps : s.pps with _ | u2
  · simp [hsps, hpps] at h
  simp only [hsps, hpps] at h
  rcases hl0 : s.l0_ref with _ | l0
  · simp only [hl0] at h; cases h
  simp only [hl0] at h
  split at h
  · split at h
    · split at h
      · split at h
        · simp only [Except.ok.injEq, Prod.mk.injEq] at h
          refine ⟨l0, rfl, by simp [hsps], by simp [hpps], h.2.symm, ?_⟩
          rw [← h.1]
        · cases h
      · cases h
    · cases h
  · cases h

/-- Inversion of a successful `GroupOfPictures::request_b`. -/
theorem gop_request_b_inv (s s2 : GroupOfPictures P R) (input : P)
    (meta : FrameMetadata) (l1 : DpbEntry R) (req : BackendRequest P R)
    (h : s.request_b input meta l1 = .ok (s2, req)) :
    ∃ l0, s.l0_ref = some l0 ∧ 1 ≤ s.poc_counter ∧
      req = { input := input
              input_meta := meta
              dpb_meta := { poc := (s.poc_counter - 1) * 2
                            frame_num := s.frame_counter
                            is_reference := .no }
              ref_list_0 := [l0]
              ref_list_1 := [l1]
              is_idr := false
              coded_output := [] } ∧
      s2 = { s with poc_counter := s.poc_counter + 1 } := by
  unfold GroupOfPictures.request_b at h
  rcases hsps : s.sps with _ | u
  · simp [hsps] at h
  rcases hpps : s.pps with _ | u2
  · simp [hsps, hpps] at h
  simp only [hsps, hpps] at h
  rcases hl0 : s.l0_ref with _ | l0
  · simp only [hl0] at h; cases h
  simp only [hl0] at h
  split at h
  · cases h
  · split at h
    · split at h
      · simp only [Except.ok.injEq, Prod.mk.injEq] at h
        refine ⟨l0, rfl, by omega, h.2.symm, ?_⟩
        rw [← h.1]
      · cases h
    · cases h

/-- Specification of the B-emission loop: it appends one B request per buffered
frame in FIFO order, advancing only `poc_counter`, and each B carries the stated
fields (the `j`-th B was emitted with `poc_counter = s.poc_counter + j`). -/
theorem gop_batch_spec {P R : Type} :
    ∀ (bs : List (P × FrameMetadata)) (s s2 : GroupOfPictures P R)
      (l1 : DpbEntry R) (acc out : List (BackendRequest P R)),
      GroupOfPictures.requestBBatch bs s l1 acc = .ok (s2, out) →
      ∃ reqs, out = acc ++ reqs ∧
        s2 = { s with future_b_frames := [],
                      poc_counter := s.poc_counter + bs.length } ∧
        reqs.map (fun r => r.input_meta) = bs.map (fun b => b.2) ∧
        ∀ r ∈ reqs, ∃ l0 j, s.l0_ref = some l0 ∧ j < bs.length ∧
          1 ≤ s.poc_counter + j ∧
          r = { input := r.input
                input_meta := r.input_meta
                dpb_meta := { poc := (s.poc_counter + j - 1) * 2
                              frame_num := s.frame_counter
                              is_reference := .no }
                ref_list_0 := [l0]
                ref_list_1 := [l1]
                is_idr := false
                coded_output := [] } := by
  intro bs
  induction bs with
  | nil =>
    intro s s2 l1 acc out h
    unfold GroupOfPictures.requestBBatch at h
    simp only [Except.ok.injEq, Prod.mk.injEq] at h
    refine ⟨[], by simp [h.2.symm], ?_, by simp, by simp⟩
    rw [← h.1]
    simp
  | cons b rest ih =>
    intro s s2 l1 acc out h
    rcases b with ⟨input, meta⟩
    unfold GroupOfPictures.requestBBatch at h
    rcases hb : GroupOfPictures.request_b
        { s with future_b_frames := rest } input meta l1 with e | ⟨s3, req⟩
    · rw [hb] at h; cases h
    rw [hb] at h
    dsimp only at h
    obtain ⟨l0, hl0, hpc1, hreq, hs3⟩ := gop_request_b_inv _ s3 input meta l1 req hb
    dsimp only at hl0 hpc1 hreq hs3
    obtain ⟨reqs, hout, hs2, hmap, hprops⟩ := ih _ s2 l1 (acc ++ [req]) out h
    rw [hs3] at hs2 hprops
    dsimp only at hs2 hprops
    refine ⟨req :: reqs, by simpa using hout, ?_, ?_, ?_⟩
    · rw [hs2]
      simp only [List.length_cons]
      congr 1
      omega
    · simp only [List.map_cons, hmap, hreq]
    · intro r hr
      rcases List.mem_cons.mp hr with hr | hr
      · refine ⟨l0, 0, hl0, by simp, by simpa using hpc1, ?_⟩
        rw [hr, hreq]
        simp
      · obtain ⟨l0x, j, hl0x, hj, hpcj, hrx⟩ := hprops r hr
        exact ⟨l0x, j + 1, hl0x, by simpa using Nat.succ_lt_succ hj,
          by omega, by simpa [Nat.add_comm, Nat.add_assoc, Nat.add_left_comm] using hrx⟩

/-- Specification of the I/P pump loop (`next_i_p_frames`): it preserves the
delivered-set bound on `l0_ref`, the `l1_ref_pending`/`frame_counter` phase
relation, the future-B size bound and (when those hold) the POC-ordering invariant,
and every request it appends to `acc` either is a referenceless IDR or is a P whose
single reference is the current delivered `l0_ref`; in both cases `ref_list_1` is
empty. -/
theorem gop_nextIPGo_spec {P R : Type} :
    ∀ (pend : List (P × FrameMetadata)) (s s2 : GroupOfPictures P R)
      (acc out : List (BackendRequest P R)) (d : List (DpbEntry R)),
      (∀ e, s.l0_ref = some e → e ∈ d) →
      GroupOfPictures.nextIPGo pend s acc = .ok (s2, out) →
      (∀ e, s2.l0_ref = some e → e ∈ d) ∧
      ((∀ m, s.l1_ref_pending = some m → s.frame_counter = m.frame_num + 1) →
        ∀ m, s2.l1_ref_pending = some m → s2.frame_counter = m.frame_num + 1) ∧
      (s.future_b_frames.length ≤ s.size → s2.future_b_frames.length ≤ s2.size) ∧
      (s.future_b_frames.length ≤ s.size → GopInvB s → GopInvB s2) ∧
      (∀ r ∈ out, r ∈ acc ∨ (reqRefsOk r d ∧ r.ref_list_1 = [])) := by
  intro pend
  induction pend with
  | nil =>
    intro s s2 acc out d hl0d h
    unfold GroupOfPictures.nextIPGo at h
    simp only [Except.ok.injEq, Prod.mk.injEq] at h
    obtain ⟨hs2, hout⟩ := h
    rw [← hs2, ← hout]
    refine ⟨hl0d, fun h7 => h7, fun hl => hl, fun _ hB => ?_, fun r hr => Or.inl hr⟩
    exact ⟨hB.1, hB.2.1, hB.2.2⟩
  | cons b rest ih =>
    intro s s2 acc out d hl0d h
    rcases b with ⟨input, meta⟩
    unfold GroupOfPictures.nextIPGo at h
    by_cases hc1 : s.l0_ref.isNone = true ∧ s.idr_ref_pending = none
    · rw [if_pos hc1] at h
      rw [gop_request_idr_eq] at h
      dsimp only at h
      obtain ⟨iha, ihb, ihc, ihd, ihe⟩ :=
        ih _ s2 _ out d (by intro e he; dsimp only at he; cases he) h
      refine ⟨iha, fun _ => ihb ?_, fun hl => ihc ?_, fun hl hB => ihd ?_ ?_, ?_⟩
      · intro m hm; dsimp only at hm; cases hm
      · dsimp only; exact hl
      · dsimp only; exact hl
      · refine ⟨?_, ?_, ?_⟩
        · intro m hm
          dsimp only at hm
          rw [Option.some.injEq] at hm
          rw [← hm]
          exact ⟨rfl, Nat.le_refl 1⟩
        · intro m hm; dsimp only at hm; cases hm
        · intro _ e he; dsimp only at he; cases he
      · intro r hr
        rcases ihe r hr with hr2 | hr2
        · rcases List.mem_append.mp hr2 with hr3 | hr3
          · exact Or.inl hr3
          · rw [List.mem_singleton] at hr3
            refine Or.inr ⟨⟨fun _ => ?_, fun hfalse => ?_, fun e he => ?_⟩, ?_⟩
            · rw [hr3]; exact ⟨rfl, rfl⟩
            · rw [hr3] at hfalse; cases hfalse
            · rw [hr3] at he; cases he
            · rw [hr3]
        · exact Or.inr hr2
    · rw [if_neg hc1] at h
      by_cases hc2 : s.future_b_frames.length < s.size
      · rw [if_pos hc2] at h
        obtain ⟨iha, ihb, ihc, ihd, ihe⟩ :=
          ih _ s2 acc out d (by intro e he; dsimp only at he; exact hl0d e he) h
        refine ⟨iha, fun h7 => ihb ?_, fun _ => ihc ?_, fun _ hB => ihd ?_ ?_, ihe⟩
        · intro m hm; dsimp only at hm; exact h7 m hm
        · show (s.future_b_frames ++ [(input, meta)]).length ≤ s.size
          rw [List.length_append, List.length_singleton]
          omega
        · show (s.future_b_frames ++ [(input, meta)]).length ≤ s.size
          rw [List.length_append, List.length_singleton]
          omega
        · refine ⟨?_, ?_, ?_⟩
          · intro m hm; dsimp only at hm ⊢; exact hB.1 m hm
          · intro m hm
            dsimp only at hm
            have := (hB.2.1 m hm).2.2.1
            omega
          · intro h1 e he; dsimp only at h1 he ⊢; exact hB.2.2 h1 e he
      · rw [if_neg hc2] at h
        by_cases hc3 : s.l1_ref_pending = none ∧ s.l0_ref.isSome = true
        · rw [if_pos hc3] at h
          rcases hp : GroupOfPictures.request_p
              { s with pending := rest } input meta with e | ⟨s3, req⟩
          · rw [hp] at h; cases h
          rw [hp] at h
          dsimp only at h
          obtain ⟨l0, hl0, _, _, hreq, hs3⟩ := gop_request_p_inv _ s3 input meta req hp
          dsimp only at hl0 hreq hs3
          have hl0d3 : ∀ e, s3.l0_ref = some e → e ∈ d := by
            intro e he
            rw [hs3] at he
            dsimp only at he
            exact hl0d e he
          obtain ⟨iha, ihb, ihc, ihd, ihe⟩ := ih _ s2 _ out d hl0d3 h
          have hpc1 : 1 ≤ s.poc_counter ∨ ¬ GopInvB s := by
            by_cases hB : GopInvB s
            · left
              have := hB.2.2 hc3.1 l0 hl0
              omega
            · right; exact hB
          refine ⟨iha, fun _ => ihb ?_, fun hl => ihc ?_, fun hl hB => ihd ?_ ?_, ?_⟩
          · intro m hm
            rw [hs3] at hm ⊢
            dsimp only at hm ⊢
            rw [Option.some.injEq] at hm
            rw [← hm]
          · rw [hs3]
            dsimp only
            exact hl
          · rw [hs3]
            dsimp only
            exact hl
          · have h1pc : 1 ≤ s.poc_counter := by
              rcases hpc1 with h1 | h1
              · exact h1
              · exact absurd hB h1
            rw [hs3]
            refine ⟨?_, ?_, ?_⟩
            · intro m hm
              dsimp only at hm
              have h0 := hB.1 m hm
              refine ⟨h0.1, ?_⟩
              show 1 ≤ s.poc_counter + 1
              omega
            · intro m hm
              dsimp only at hm
              rw [Option.some.injEq] at hm
              rw [← hm]
              refine ⟨?_, ?_, ?_, ?_⟩
              · show (s.poc_counter + s.size) * 2 =
                  2 * (s.poc_counter + 1 - 1 + s.size)
                omega
              · show 2 ≤ s.poc_counter + 1
                omega
              · show s.future_b_frames.length = s.size
                omega
              · intro e he
                have he2 : s.l0_ref = some e := he
                rw [hl0] at he2
                rw [Option.some.injEq] at he2
                rw [← he2]
                have hlt := hB.2.2 hc3.1 l0 hl0
                show l0.meta.poc < 2 * (s.poc_counter + 1 - 1)
                omega
            · intro hnone
              dsimp only at hnone
              cases hnone
          · intro r hr
            rcases ihe r hr with hr2 | hr2
            · rcases List.mem_append.mp hr2 with hr3 | hr3
              · exact Or.inl hr3
              · rw [List.mem_singleton] at hr3
                refine Or.inr ⟨⟨fun htrue => ?_, fun _ => ?_, fun e he => ?_⟩, ?_⟩
                · rw [hr3, hreq] at htrue; cases htrue
                · rw [hr3, hreq]; simp
                · rw [hr3, hreq] at he
                  simp only [List.append_nil, List.mem_singleton] at he
                  rw [he]
                  exact hl0d l0 hl0
                · rw [hr3, hreq]
            · exact Or.inr hr2
        · rw [if_neg hc3] at h
          simp only [Except.ok.injEq, Prod.mk.injEq] at h
          obtain ⟨hs2, hout⟩ := h
          rw [← hs2, ← hout]
          refine ⟨hl0d, fun h7 => h7, fun hl => hl, fun _ hB => ?_,
            fun r hr => Or.inl hr⟩
          exact ⟨hB.1, hB.2.1, hB.2.2⟩

/-- One `GroupOfPictures` predictor call, specified for the three trace claims:
(1) the `l0_ref`-delivery bound is preserved and every emitted request passes
`reqRefsOk`; (2) the `l1_ref_pending`/`frame_counter` phase relation is preserved
and every emitted request passes `bReqShape`; (3) away from `drain`, the invariants
`GopInvA`/`GopInvB` are preserved and every emitted request passes `bPocBetween`.
`d2` is the delivered set after the call. -/
theorem gop_step_spec {P R : Type} (s s2 : GroupOfPictures P R) (op : PredOp P R)
    (reqs : List (BackendRequest P R)) (d d2 : List (DpbEntry R))
    (h : GroupOfPictures.step s op = .ok (s2, reqs))
    (hd2 : d2 = match op with | .reconstructed e2 => d ++ [e2] | _ => d) :
    ((∀ e, s.l0_ref = some e → e ∈ d) →
      (∀ e, s2.l0_ref = some e → e ∈ d2) ∧ ∀ r ∈ reqs, reqRefsOk r d2) ∧
    ((∀ e, s.l0_ref = some e → e ∈ d) →
      (∀ m, s.l1_ref_pending = some m → s.frame_counter = m.frame_num + 1) →
      (∀ m, s2.l1_ref_pending = some m → s2.frame_counter = m.frame_num + 1) ∧
      ∀ r ∈ reqs, bReqShape r) ∧
    (op ≠ PredOp.drain → GopInvA s d → GopInvB s →
      (GopInvA s2 d2 ∧ GopInvB s2) ∧ ∀ r ∈ reqs, bPocBetween r) := by
  cases op with
  | new_frame input meta =>
    simp only [GroupOfPictures.step] at h
    rcases hnf : s.new_frame input meta with e2 | ⟨s3, v⟩
    · rw [hnf] at h; cases h
    rw [hnf] at h
    simp only [Except.ok.injEq, Prod.mk.injEq] at h
    obtain ⟨rfl, rfl⟩ := h
    have hd2' : d2 = d := hd2
    subst hd2'
    unfold GroupOfPictures.new_frame GroupOfPictures.next_i_p_frames at hnf
    dsimp only at hnf
    split at hnf
    · cases hnf
    · next s4 out heq =>
      simp only [Except.ok.injEq, Prod.mk.injEq] at hnf
      obtain ⟨rfl, hv⟩ := hnf
      have hsub : ∀ r, r ∈ v.requestsOf → r ∈ out := by
        intro r hr
        rw [← hv] at hr
        by_cases he : out.isEmpty = true
        · rw [if_pos he] at hr; cases hr
        · rw [if_neg he] at hr; exact hr
      refine ⟨?_, ?_, ?_⟩
      · intro hl0d
        obtain ⟨pa, pb, pc2, pd, pe⟩ :=
          gop_nextIPGo_spec _ _ _ _ _ d2 (by exact fun e he => hl0d e he) heq
        refine ⟨pa, ?_⟩
        intro r hr
        rcases pe r (hsub r hr) with hin | hgood
        · cases hin
        · exact hgood.1
      · intro hl0d h7
        obtain ⟨pa, pb, pc2, pd, pe⟩ :=
          gop_nextIPGo_spec _ _ _ _ _ d2 (by exact fun e he => hl0d e he) heq
        refine ⟨pb (by exact fun m hm => h7 m hm), ?_⟩
        intro r hr
        rcases pe r (hsub r hr) with hin | hgood
        · cases hin
        · intro hne
          exact absurd hgood.2 hne
      · intro _ hA hB
        obtain ⟨pa, pb, pc2, pd, pe⟩ :=
          gop_nextIPGo_spec _ _ _ _ _ d2 (by exact fun e he => hA.1 e he) heq
        refine ⟨⟨⟨pa, pc2 (by exact hA.2.1), pb (by exact fun m hm => hA.2.2 m hm)⟩,
          pd (by exact hA.2.1) (by exact hB)⟩, ?_⟩
        intro r hr
        rcases pe r (hsub r hr) with hin | hgood
        · cases hin
        · intro e0 h0 e1 h1
          rw [hgood.2] at h1
          cases h1
  | reconstructed recon =>
    simp only [GroupOfPictures.step] at h
    rcases hnf : s.reconstructed recon with e2 | ⟨s3, v⟩
    · rw [hnf] at h; cases h
    rw [hnf] at h
    simp only [Except.ok.injEq, Prod.mk.injEq] at h
    obtain ⟨rfl, rfl⟩ := h
    have hd2' : d2 = d ++ [recon] := hd2
    subst hd2'
    unfold GroupOfPictures.reconstructed at hnf
    dsimp only at hnf
    by_cases hidr : s.idr_ref_pending = some recon.meta
    · rw [if_pos hidr] at hnf
      dsimp only at hnf
      unfold GroupOfPictures.next_i_p_frames at hnf
      split at hnf
      · cases hnf
      · next s4 out heq =>
        simp only [Except.ok.injEq, Prod.mk.injEq] at hnf
        obtain ⟨rfl, hv⟩ := hnf
        have hsub : ∀ r, r ∈ v.requestsOf → r ∈ out := by
          intro r hr
          rw [← hv] at hr
          by_cases he : out.isEmpty = true
          · rw [if_pos he] at hr; cases hr
          · rw [if_neg he] at hr; exact hr
        have hl0new : ∀ e : DpbEntry R, some recon = some e → e ∈ d ++ [recon] := by
          intro e he
          rw [Option.some.injEq] at he
          rw [← he]
          exact List.mem_append.mpr (Or.inr (List.mem_singleton.mpr rfl))
        refine ⟨?_, ?_, ?_⟩
        · intro hl0d
          obtain ⟨pa, pb, pc2, pd, pe⟩ :=
            gop_nextIPGo_spec _ _ _ _ _ (d ++ [recon]) (by exact hl0new) heq
          refine ⟨pa, ?_⟩
          intro r hr
          rcases pe r (hsub r hr) with hin | hgood
          · cases hin
          · exact hgood.1
        · intro hl0d h7
          obtain ⟨pa, pb, pc2, pd, pe⟩ :=
            gop_nextIPGo_spec _ _ _ _ _ (d ++ [recon]) (by exact hl0new) heq
          refine ⟨pb (by exact fun m hm => h7 m hm), ?_⟩
          intro r hr
          rcases pe r (hsub r hr) with hin | hgood
          · cases hin
          · intro hne
            exact absurd hgood.2 hne
        · intro _ hA hB
          obtain ⟨pa, pb, pc2, pd, pe⟩ :=
            gop_nextIPGo_spec _ _ _ _ _ (d ++ [recon]) (by exact hl0new) heq
          have hpoc0 := hB.1 recon.meta hidr
          have hBnew : GopInvB ({ s with l0_ref := some recon } :
              GroupOfPictures P R) := by
            refine ⟨?_, ?_, ?_⟩
            · intro m hm
              exact hB.1 m hm
            · intro m hm
              have h2 := hB.2.1 m hm
              refine ⟨h2.1, h2.2.1, h2.2.2.1, ?_⟩
              intro e he
              dsimp only at he
              rw [Option.some.injEq] at he
              rw [← he]
              show recon.meta.poc < 2 * (s.poc_counter - 1)
              have h21 := h2.2.1
              have hp0 := hpoc0.1
              omega
            · intro hnone e he
              dsimp only at he
              rw [Option.some.injEq] at he
              rw [← he]
              show recon.meta.poc < 2 * s.poc_counter
              have hp0 := hpoc0.1
              have hp1 := hpoc0.2
              omega
          refine ⟨⟨⟨pa, pc2 (by exact hA.2.1),
            pb (by exact fun m hm => hA.2.2 m hm)⟩,
            pd (by exact hA.2.1) (by exact hBnew)⟩, ?_⟩
          intro r hr
          rcases pe r (hsub r hr) with hin | hgood
          · cases hin
          · intro e0 h0 e1 h1
            rw [hgood.2] at h1
            cases h1
    · rw [if_neg hidr] at hnf
      by_cases hl1m : s.l1_ref_pending = some recon.meta
      · rw [if_pos hl1m] at hnf
        split at hnf
        · cases hnf
        · next s1 acc1 hfirst =>
          split at hfirst
          · cases hfirst
          · next s5 breqs hbatch =>
            simp only [Except.ok.injEq, Prod.mk.injEq] at hfirst
            obtain ⟨hs1, hacc⟩ := hfirst
            subst hs1
            subst hacc
            obtain ⟨rs, hbout, hs5, hmap, hprops⟩ :=
              gop_batch_spec s.future_b_frames s s5 recon [] breqs hbatch
            rw [List.nil_append] at hbout
            unfold GroupOfPictures.next_i_p_frames at hnf
            split at hnf
            · cases hnf
            · next s4 out heq =>
              simp only [Except.ok.injEq, Prod.mk.injEq] at hnf
              obtain ⟨rfl, hv⟩ := hnf
              have hsub : ∀ r, r ∈ v.requestsOf → r ∈ out := by
                intro r hr
                rw [← hv] at hr
                by_cases he : out.isEmpty = true
                · rw [if_pos he] at hr; cases hr
                · rw [if_neg he] at hr; exact hr
              have hl0new : ∀ e : DpbEntry R, some recon = some e →
                  e ∈ d ++ [recon] := by
                intro e he
                rw [Option.some.injEq] at he
                rw [← he]
                exact List.mem_append.mpr (Or.inr (List.mem_singleton.mpr rfl))
              refine ⟨?_, ?_, ?_⟩
              · intro hl0d
                obtain ⟨pa, pb, pc2, pd, pe⟩ :=
                  gop_nextIPGo_spec _ _ _ _ _ (d ++ [recon]) (by exact hl0new) heq
                refine ⟨pa, ?_⟩
                intro r hr
                rcases pe r (hsub r hr) with hin | hgood
                · rw [hbout] at hin
                  obtain ⟨l0, j, hl0, hj, hpcj, hr2⟩ := hprops r hin
                  refine ⟨fun htrue => ?_, fun _ => ?_, fun e he => ?_⟩
                  · rw [hr2] at htrue; cases htrue
                  · rw [hr2]; simp
                  · rw [hr2] at he
                    simp only [List.mem_append, List.mem_singleton] at he
                    rcases he with he | he
                    · rw [he]
                      exact List.mem_append.mpr (Or.inl (hl0d l0 hl0))
                    · rw [he]
                      exact List.mem_append.mpr
                        (Or.inr (List.mem_singleton.mpr rfl))
                · exact hgood.1
              · intro hl0d h7
                obtain ⟨pa, pb, pc2, pd, pe⟩ :=
                  gop_nextIPGo_spec _ _ _ _ _ (d ++ [recon]) (by exact hl0new) heq
                have hfc := h7 recon.meta hl1m
                refine ⟨pb ?_, ?_⟩
                · intro m hm
                  dsimp only at hm
                  cases hm
                · intro r hr
                  rcases pe r (hsub r hr) with hin | hgood
                  · rw [hbout] at hin
                    obtain ⟨l0, j, hl0, hj, hpcj, hr2⟩ := hprops r hin
                    intro _
                    refine ⟨by rw [hr2], ⟨recon, by rw [hr2], ?_⟩,
                      ⟨l0, by rw [hr2]⟩⟩
                    rw [hr2]
                    dsimp only
                    omega
                  · intro hne
                    exact absurd hgood.2 hne
              · intro _ hA hB
                obtain ⟨pa, pb, pc2, pd, pe⟩ :=
                  gop_nextIPGo_spec _ _ _ _ _ (d ++ [recon]) (by exact hl0new) heq
                have hB2 := hB.2.1 recon.meta hl1m
                have hBnew : GopInvB ({ s5 with l0_ref := some recon, l1_ref_pending := none } : GroupOfPictures P R) := by
                  refine ⟨?_, ?_, ?_⟩
                  · intro m hm
                    dsimp only at hm
                    rw [hs5] at hm
                    dsimp only at hm
                    have h1 := hB.1 m hm
                    refine ⟨h1.1, ?_⟩
                    rw [hs5]
                    show 1 ≤ s.poc_counter + s.future_b_frames.length
                    have h12 := h1.2
                    omega
                  · intro m hm
                    dsimp only at hm
                    cases hm
                  · intro _ e he
                    dsimp only at he
                    rw [Option.some.injEq] at he
                    rw [← he, hs5]
                    show recon.meta.poc <
                      2 * (s.poc_counter + s.future_b_frames.length)
                    have hb1 := hB2.1
                    have hb2 := hB2.2.1
                    have hb3 := hB2.2.2.1
                    omega
                have hlenB : ({ s5 with l0_ref := some recon, l1_ref_pending := none } : GroupOfPictures P R).future_b_frames.length ≤ ({ s5 with l0_ref := some recon, l1_ref_pending := none } : GroupOfPictures P R).size := by
                  rw [hs5]
                  show ([] : List (P × FrameMetadata)).length ≤ s.size
                  simp
                have h7B : ∀ m, ({ s5 with l0_ref := some recon, l1_ref_pending := none } : GroupOfPictures P R).l1_ref_pending = some m → ({ s5 with l0_ref := some recon, l1_ref_pending := none } : GroupOfPictures P R).frame_counter = m.frame_num + 1 := by
                  intro m hm
                  dsimp only at hm
                  cases hm
                refine ⟨⟨⟨pa, pc2 hlenB, pb h7B⟩, pd hlenB hBnew⟩, ?_⟩
                intro r hr
                rcases pe r (hsub r hr) with hin | hgood
                · rw [hbout] at hin
                  obtain ⟨l0, j, hl0, hj, hpcj, hr2⟩ := hprops r hin
                  have hl0lt := hB2.2.2.2 l0 hl0
                  intro e0 h0 e1 h1
                  rw [hr2] at h0 h1
                  simp only [List.mem_singleton] at h0 h1
                  rw [h0, h1, hr2]
                  dsimp only
                  have hb1 := hB2.1
                  have hb2 := hB2.2.1
                  have hb3 := hB2.2.2.1
                  constructor
                  · omega
                  · omega
                · intro e0 h0 e1 h1
                  rw [hgood.2] at h1
                  cases h1
      · rw [if_neg hl1m] at hnf
        dsimp only at hnf
        unfold GroupOfPictures.next_i_p_frames at hnf
        split at hnf
        · cases hnf
        · next s4 out heq =>
          simp only [Except.ok.injEq, Prod.mk.injEq] at hnf
          obtain ⟨rfl, hv⟩ := hnf
          have hsub : ∀ r, r ∈ v.requestsOf → r ∈ out := by
            intro r hr
            rw [← hv] at hr
            by_cases he : out.isEmpty = true
            · rw [if_pos he] at hr; cases hr
            · rw [if_neg he] at hr; exact hr
          refine ⟨?_, ?_, ?_⟩
          · intro hl0d
            obtain ⟨pa, pb, pc2, pd, pe⟩ := gop_nextIPGo_spec _ _ _ _ _ (d ++ [recon])
              (by exact fun e he => List.mem_append.mpr (Or.inl (hl0d e he))) heq
            refine ⟨pa, ?_⟩
            intro r hr
            rcases pe r (hsub r hr) with hin | hgood
            · cases hin
            · exact hgood.1
          · intro hl0d h7
            obtain ⟨pa, pb, pc2, pd, pe⟩ := gop_nextIPGo_spec _ _ _ _ _ (d ++ [recon])
              (by exact fun e he => List.mem_append.mpr (Or.inl (hl0d e he))) heq
            refine ⟨pb (by exact h7), ?_⟩
            intro r hr
            rcases pe r (hsub r hr) with hin | hgood
            · cases hin
            · intro hne
              exact absurd hgood.2 hne
          · intro _ hA hB
            obtain ⟨pa, pb, pc2, pd, pe⟩ := gop_nextIPGo_spec _ _ _ _ _ (d ++ [recon])
              (by exact fun e he => List.mem_append.mpr (Or.inl (hA.1 e he))) heq
            refine ⟨⟨⟨pa, pc2 (by exact hA.2.1), pb (by exact hA.2.2)⟩,
              pd (by exact hA.2.1) (by exact hB)⟩, ?_⟩
            intro r hr
            rcases pe r (hsub r hr) with hin | hgood
            · cases hin
            · intro e0 h0 e1 h1
              rw [hgood.2] at h1
              cases h1
  | drain =>
    simp only [GroupOfPictures.step] at h
    rcases hdr : s.drain with e2 | ⟨s3, reqs1⟩
    · rw [hdr] at h; cases h
    rw [hdr] at h
    simp only [Except.ok.injEq, Prod.mk.injEq] at h
    obtain ⟨rfl, rfl⟩ := h
    have hd2' : d2 = d := hd2
    subst hd2'
    unfold GroupOfPictures.drain at hdr
    by_cases hg : s.l1_ref_pending ≠ none
    · rw [if_pos hg] at hdr; cases hdr
    rw [if_neg hg] at hdr
    rcases hlast : s.future_b_frames.getLast? with _ | ⟨input, meta⟩
    · rw [hlast] at hdr; cases hdr
    rw [hlast] at hdr
    dsimp only at hdr
    rcases hp : GroupOfPictures.request_p
        { s with future_b_frames := s.future_b_frames.dropLast } input meta
      with e2 | ⟨s4, req⟩
    · rw [hp] at hdr; cases hdr
    rw [hp] at hdr
    dsimp only at hdr
    simp only [Except.ok.injEq, Prod.mk.injEq] at hdr
    obtain ⟨hs3, hreqs⟩ := hdr
    obtain ⟨l0, hl0, _, _, hreq, hs4⟩ := gop_request_p_inv _ s4 input meta req hp
    dsimp only at hl0 hreq hs4
    refine ⟨?_, ?_, fun hne _ _ => absurd rfl hne⟩
    · intro hl0d
      constructor
      · intro e he
        rw [← hs3] at he
        dsimp only at he
        rw [hs4] at he
        dsimp only at he
        exact hl0d e he
      · intro r hr
        rw [← hreqs, List.mem_singleton] at hr
        refine ⟨fun htrue => ?_, fun _ => ?_, fun e he => ?_⟩
        · rw [hr, hreq] at htrue; cases htrue
        · rw [hr, hreq]; simp
        · rw [hr, hreq] at he
          simp only [List.append_nil, List.mem_singleton] at he
          rw [he]
          exact hl0d l0 hl0
    · intro _ _
      constructor
      · intro m hm
        rw [← hs3] at hm
        dsimp only at hm
        rw [Option.some.injEq] at hm
        rw [← hm, ← hs3, hreq, hs4]
      · intro r hr
        rw [← hreqs, List.mem_singleton] at hr
        intro hne
        rw [hr, hreq] at hne
        exact absurd rfl hne

/-- C3: every request emitted by either predictor has empty reference lists when it
is an IDR, a non-empty `ref_list_0` when it is not, and references only `DpbEntry`
values previously delivered through `reconstructed`.  (`p.2` is the list of entries
delivered up to the request's emission.) -/
theorem c3_reference_validity :
    (∀ (P R : Type) (tail limit : Nat) (ops : List (PredOp P R)),
      ∀ p ∈ (LowDelay.run P R tail limit ops).1,
        (p.1.is_idr = true → p.1.ref_list_0 = [] ∧ p.1.ref_list_1 = []) ∧
        (p.1.is_idr = false → p.1.ref_list_0 ≠ []) ∧
        (∀ e ∈ p.1.ref_list_0 ++ p.1.ref_list_1, e ∈ p.2)) ∧
    (∀ (P R : Type) (size limit : Nat) (ops : List (PredOp P R)),
      ∀ p ∈ (GroupOfPictures.run P R size limit ops).1,
        (p.1.is_idr = true → p.1.ref_list_0 = [] ∧ p.1.ref_list_1 = []) ∧
        (p.1.is_idr = false → p.1.ref_list_0 ≠ []) ∧
        (∀ e ∈ p.1.ref_list_0 ++ p.1.ref_list_1, e ∈ p.2)) := by
  constructor
  · intro P R tail limit ops
    refine runPred_log_sound LowDelay.step
      (fun s d => ∀ e ∈ s.dpb, e ∈ d)
      (fun r d =>
        (r.is_idr = true → r.ref_list_0 = [] ∧ r.ref_list_1 = []) ∧
        (r.is_idr = false → r.ref_list_0 ≠ []) ∧
        (∀ e ∈ r.ref_list_0 ++ r.ref_list_1, e ∈ d))
      ?_ ops _ [] [] (by intro e he; cases he) (by intro p hp; cases hp)
    intro s d op s2 reqs hinv hs
    match op with
    | .new_frame input meta =>
      simp only [LowDelay.step] at hs
      rcases hnf : s.new_frame input meta with e | ⟨s3, v⟩
      · rw [hnf] at hs; cases hs
      rw [hnf] at hs
      simp only [Except.ok.injEq, Prod.mk.injEq] at hs
      obtain ⟨rfl, rfl⟩ := hs
      exact ld_next_request_refs _ s3 v d (by simpa using hinv) hnf
    | .reconstructed e =>
      simp only [LowDelay.step] at hs
      rcases hnf : s.reconstructed e with e2 | ⟨s3, v⟩
      · rw [hnf] at hs; cases hs
      rw [hnf] at hs
      simp only [Except.ok.injEq, Prod.mk.injEq] at hs
      obtain ⟨rfl, rfl⟩ := hs
      have hinvp : ∀ x ∈ ({ s with dpb := s.dpb ++ [e] } : LowDelay P R).dpb,
          x ∈ d ++ [e] := by
        intro x hx
        dsimp only at hx
        rcases List.mem_append.mp hx with hx | hx
        · exact List.mem_append.mpr (Or.inl (hinv x hx))
        · exact List.mem_append.mpr (Or.inr hx)
      exact ld_next_request_refs _ s3 v (d ++ [e]) hinvp hnf
    | .drain =>
      simp only [LowDelay.step, LowDelay.drain] at hs
      cases hs
  · intro P R size limit ops
    refine runPred_log_sound GroupOfPictures.step
      (fun s d => ∀ e, s.l0_ref = some e → e ∈ d)
      (fun r d =>
        (r.is_idr = true → r.ref_list_0 = [] ∧ r.ref_list_1 = []) ∧
        (r.is_idr = false → r.ref_list_0 ≠ []) ∧
        (∀ e ∈ r.ref_list_0 ++ r.ref_list_1, e ∈ d))
      ?_ ops _ [] [] (by intro e he; cases he) (by intro p hp; cases hp)
    intro s d op s2 reqs hinv hs
    cases op with
    | reconstructed e2 =>
      obtain ⟨c1, _, _⟩ := gop_step_spec s s2 _ reqs d (d ++ [e2]) hs rfl
      obtain ⟨hpres, hreqs⟩ := c1 hinv
      exact ⟨hpres, fun r hr => hreqs r hr⟩
    | new_frame input meta =>
      obtain ⟨c1, _, _⟩ := gop_step_spec s s2 _ reqs d d hs rfl
      obtain ⟨hpres, hreqs⟩ := c1 hinv
      exact ⟨hpres, fun r hr => hreqs r hr⟩
    | drain =>
      obtain ⟨c1, _, _⟩ := gop_step_spec s s2 _ reqs d d hs rfl
      obtain ⟨hpres, hreqs⟩ := c1 hinv
      exact ⟨hpres, fun r hr => hreqs r hr⟩

/-- Witness for C3 at a concrete input: the IDR emitted for the first frame of a
`LowDelay{tail=3, limit=16}` run carries no references. -/
theorem c3_reference_validity_witness :
    c3wpair ∈ (LowDelay.run Unit Unit 3 16 [PredOp.new_frame () (mkMeta 0 false)]).1 ∧
    (c3wpair.1.is_idr = true → c3wpair.1.ref_list_0 = [] ∧ c3wpair.1.ref_list_1 = []) ∧
    (c3wpair.1.is_idr = false → c3wpair.1.ref_list_0 ≠ []) ∧
    (∀ e ∈ c3wpair.1.ref_list_0 ++ c3wpair.1.ref_list_1, e ∈ c3wpair.2) :=
  ⟨by decide, c3_reference_validity.1 Unit Unit 3 16
    [PredOp.new_frame () (mkMeta 0 false)] c3wpair (by decide)⟩

/-- Variant of `runPred_log_sound` restricted to traces whose operations all satisfy
`OpOk`: if every `OpOk` step preserves `SInv` and emits only `RProp` requests, then
every logged pair of such a trace satisfies `RProp`. -/
theorem runPred_log_sound_on {σ P R : Type}
    (step : σ → PredOp P R → Except RunErr (σ × List (BackendRequest P R)))
    (OpOk : PredOp P R → Prop)
    (SInv : σ → List (DpbEntry R) → Prop)
    (RProp : BackendRequest P R → List (DpbEntry R) → Prop)
    (hstep : ∀ s d op s2 reqs, OpOk op →
      SInv s d → step s op = .ok (s2, reqs) →
      SInv s2 (match op with | .reconstructed e => d ++ [e] | _ => d) ∧
      ∀ r ∈ reqs, RProp r (match op with | .reconstructed e => d ++ [e] | _ => d)) :
    ∀ (ops : List (PredOp P R)) (s : σ) (d : List (DpbEntry R))
      (log : List (BackendRequest P R × List (DpbEntry R))),
      (∀ op ∈ ops, OpOk op) →
      SInv s d → (∀ p ∈ log, RProp p.1 p.2) →
      ∀ p ∈ (runPred step s d log ops).1, RProp p.1 p.2 := by
  intro ops
  induction ops with
  | nil =>
    intro s d log _ _ hlog p hp
    exact hlog p (by simpa [runPred] using hp)
  | cons op rest ih =>
    intro s d log hops hinv hlog p hp
    unfold runPred at hp
    rcases hs : step s op with e | ⟨s2, reqs⟩
    · rw [hs] at hp
      exact hlog p hp
    · rw [hs] at hp
      dsimp only at hp
      have hres := hstep s d op s2 reqs (hops op (List.mem_cons_self op rest))
        hinv hs
      refine ih s2 _ _ (fun o ho => hops o (List.mem_cons_of_mem op ho))
        hres.1 ?_ p hp
      intro q hq
      rcases List.mem_append.mp hq with hq | hq
      · exact hlog q hq
      · obtain ⟨r, hr, rfl⟩ := List.mem_map.mp hq
        exact hres.2 r hr

/-- `GroupOfPictures::request_p` never fails with `InvalidInternalState`: its only
failure modes are the `l0_ref`/SPS/PPS unwraps and the checked arithmetic. -/
theorem gop_request_p_no_invalid {P R : Type} (s : GroupOfPictures P R)
    (input : P) (meta : FrameMetadata) :
    s.request_p input meta ≠ .error RunErr.invalidInternalState := by
  intro h
  unfold GroupOfPictures.request_p at h
  repeat' split at h
  all_goals simp at h

/-- C6 counterexample: a completed `GroupOfPictures{size=2, limit=16}` run through
the public interface (`c6trace`, which closes its first GOP with `drain`) logs a B
request (`ref_list_1 ≠ []`) whose POC equals the POC of its `ref_list_0` anchor —
not strictly between its anchors' POCs. -/
theorem c6_poc_counterexample :
    (match (GroupOfPictures.run Unit Unit 2 16 c6trace).2 with
      | .ok _ => true
      | .error _ => false) = true ∧
    ∃ p ∈ (GroupOfPictures.run Unit Unit 2 16 c6trace).1,
      p.1.ref_list_1 ≠ [] ∧
      p.1.ref_list_0.map (fun e => e.meta.poc) = [6] ∧
      p.1.dpb_meta.poc = 6 := by
  decide

/-- C6 (amended): `request_p` assigns `poc = 2·(poc_counter + size)`,
`frame_num = frame_counter` and `ref_list_0 = [l0_ref]`; `request_b` assigns
`poc = 2·(poc_counter − 1)` and advances `poc_counter` by one; and on every
`GroupOfPictures` trace that never calls `drain`, each logged B request's POC lies
strictly between the POCs of its `ref_list_0` and `ref_list_1` anchors. -/
theorem c6_poc_interpolation :
    (∀ (P R : Type) (s s2 : GroupOfPictures P R) (input : P)
       (meta : FrameMetadata) (req : BackendRequest P R),
      s.request_p input meta = .ok (s2, req) →
      req.dpb_meta.poc = 2 * (s.poc_counter + s.size) ∧
      req.dpb_meta.frame_num = s.frame_counter ∧
      ∃ l0, s.l0_ref = some l0 ∧ req.ref_list_0 = [l0]) ∧
    (∀ (P R : Type) (s s2 : GroupOfPictures P R) (input : P)
       (meta : FrameMetadata) (l1 : DpbEntry R) (req : BackendRequest P R),
      s.request_b input meta l1 = .ok (s2, req) →
      req.dpb_meta.poc = 2 * (s.poc_counter - 1) ∧
      s2.poc_counter = s.poc_counter + 1) ∧
    (∀ (P R : Type) (size limit : Nat) (ops : List (PredOp P R)),
      (∀ op ∈ ops, op ≠ PredOp.drain) →
      ∀ p ∈ (GroupOfPictures.run P R size limit ops).1, bPocBetween p.1) := by
  refine ⟨?_, ?_, ?_⟩
  · intro P R s s2 input meta req h
    obtain ⟨l0, hl0, _, _, hreq, _⟩ := gop_request_p_inv s s2 input meta req h
    rw [hreq]
    exact ⟨by dsimp only; omega, rfl, l0, hl0, rfl⟩
  · intro P R s s2 input meta l1 req h
    obtain ⟨l0, hl0, hpc, hreq, hs2⟩ := gop_request_b_inv s s2 input meta l1 req h
    rw [hreq, hs2]
    exact ⟨by dsimp only; omega, rfl⟩
  · intro P R size limit ops hops
    refine runPred_log_sound_on GroupOfPictures.step
      (fun op => op ≠ PredOp.drain)
      (fun s d => GopInvA s d ∧ GopInvB s)
      (fun r _ => bPocBetween r)
      ?_ ops _ [] [] hops ⟨⟨?_, ?_, ?_⟩, ?_, ?_, ?_⟩
      (by intro p hp; cases hp)
    · intro s d op s2 reqs hop hinv hs
      cases op with
      | drain => exact absurd rfl hop
      | reconstructed e2 =>
        obtain ⟨_, _, c3⟩ := gop_step_spec s s2 _ reqs d (d ++ [e2]) hs rfl
        obtain ⟨⟨hA2, hB2⟩, hreqs⟩ :=
          c3 (by intro hc; cases hc) hinv.1 hinv.2
        exact ⟨⟨hA2, hB2⟩, fun r hr => hreqs r hr⟩
      | new_frame input meta =>
        obtain ⟨_, _, c3⟩ := gop_step_spec s s2 _ reqs d d hs rfl
        obtain ⟨⟨hA2, hB2⟩, hreqs⟩ :=
          c3 (by intro hc; cases hc) hinv.1 hinv.2
        exact ⟨⟨hA2, hB2⟩, fun r hr => hreqs r hr⟩
    · intro e he
      cases he
    · show ([] : List (P × FrameMetadata)).length ≤ size
      simp
    · intro m hm
      cases hm
    · intro m hm
      cases hm
    · intro m hm
      cases hm
    · intro hnone e he
      cases he

/-- Witness for C6 at a concrete input: the B request logged by the drain-free
`GroupOfPictures{size=1, limit=16}` run over `c7trace` has its POC strictly between
its anchors' POCs. -/
theorem c6_poc_interpolation_witness :
    c7wpair ∈ (GroupOfPictures.run Unit Unit 1 16 c7trace).1 ∧
    bPocBetween c7wpair.1 :=
  ⟨by decide, c6_poc_interpolation.2.2 Unit Unit 1 16 c7trace (by decide)
    c7wpair (by decide)⟩

/-- C7 counterexample: the completed `GroupOfPictures{size=1, limit=16}` run over
`c7trace` logs a B request whose anchoring P (its `ref_list_1` entry) has
`frame_num = 1` while the B itself carries `frame_num = 2` — the B does not share
its anchoring P's `frame_num`. -/
theorem c7_frame_num_counterexample :
    (match (GroupOfPictures.run Unit Unit 1 16 c7trace).2 with
      | .ok _ => true
      | .error _ => false) = true ∧
    ∃ p ∈ (GroupOfPictures.run Unit Unit 1 16 c7trace).1,
      p.1.ref_list_1.map (fun e => e.meta.frame_num) = [1] ∧
      p.1.dpb_meta.frame_num = 2 := by
  decide

/-- C7 (amended): the B-emission loop emits the buffered frames in FIFO order
without advancing `frame_counter`, and on every `GroupOfPictures` trace each logged
request with a non-empty `ref_list_1` is a non-reference B with singleton reference
lists whose `frame_num` is one more than its anchoring P's `frame_num` (`request_p`
increments `frame_counter` past the P's own `frame_num` before any of its Bs are
emitted). -/
theorem c7_b_request_shape :
    (∀ (P R : Type) (bs : List (P × FrameMetadata))
       (s s2 : GroupOfPictures P R) (l1 : DpbEntry R)
       (out : List (BackendRequest P R)),
      GroupOfPictures.requestBBatch bs s l1 [] = .ok (s2, out) →
      out.map (fun r => r.input_meta) = bs.map (fun b => b.2) ∧
      s2.frame_counter = s.frame_counter) ∧
    (∀ (P R : Type) (size limit : Nat) (ops : List (PredOp P R)),
      ∀ p ∈ (GroupOfPictures.run P R size limit ops).1, bReqShape p.1) := by
  constructor
  · intro P R bs s s2 l1 out h
    obtain ⟨rs, hout, hs2, hmap, _⟩ := gop_batch_spec bs s s2 l1 [] out h
    rw [List.nil_append] at hout
    constructor
    · rw [hout]
      exact hmap
    · rw [hs2]
  · intro P R size limit ops
    refine runPred_log_sound GroupOfPictures.step
      (fun s d => (∀ e, s.l0_ref = some e → e ∈ d) ∧
        (∀ m, s.l1_ref_pending = some m → s.frame_counter = m.frame_num + 1))
      (fun r _ => bReqShape r)
      ?_ ops _ [] []
      ⟨(by intro e he; cases he), (by intro m hm; cases hm)⟩
      (by intro p hp; cases hp)
    intro s d op s2 reqs hinv hs
    cases op with
    | reconstructed e2 =>
      obtain ⟨c1, c2, _⟩ := gop_step_spec s s2 _ reqs d (d ++ [e2]) hs rfl
      obtain ⟨h7, hreqs⟩ := c2 hinv.1 hinv.2
      exact ⟨⟨(c1 hinv.1).1, h7⟩, fun r hr => hreqs r hr⟩
    | new_frame input meta =>
      obtain ⟨c1, c2, _⟩ := gop_step_spec s s2 _ reqs d d hs rfl
      obtain ⟨h7, hreqs⟩ := c2 hinv.1 hinv.2
      exact ⟨⟨(c1 hinv.1).1, h7⟩, fun r hr => hreqs r hr⟩
    | drain =>
      obtain ⟨c1, c2, _⟩ := gop_step_spec s s2 _ reqs d d hs rfl
      obtain ⟨h7, hreqs⟩ := c2 hinv.1 hinv.2
      exact ⟨⟨(c1 hinv.1).1, h7⟩, fun r hr => hreqs r hr⟩

/-- Witness for C7 at a concrete input: the B request logged by the
`GroupOfPictures{size=1, limit=16}` run over `c7trace` has the amended shape. -/
theorem c7_b_request_shape_witness :
    c7wpair ∈ (GroupOfPictures.run Unit Unit 1 16 c7trace).1 ∧
    bReqShape c7wpair.1 :=
  ⟨by decide, c7_b_request_shape.2 Unit Unit 1 16 c7trace c7wpair (by decide)⟩

/-- C8 counterexample: the `GroupOfPictures{size=2, limit=16}` state reached by
`c8trace` (IDR emitted, one future B buffered, IDR reconstruction not yet
delivered) has `l1_ref_pending = None` and non-empty `future_b_frames`, yet `drain`
fails — with the `l0_ref` unwrap panic, not `InvalidInternalState`, so the claimed
"if and only if" error condition and the claimed success case are both refuted. -/
theorem c8_drain_error_counterexample :
    ∃ s, (GroupOfPictures.run Unit Unit 2 16 c8trace).2 = .ok s ∧
      s.l1_ref_pending = none ∧ s.future_b_frames ≠ [] ∧
      s.drain = .error RunErr.panicUnwrap ∧
      s.drain ≠ .error RunErr.invalidInternalState := by
  refine ⟨_, rfl, ?_, ?_, ?_, ?_⟩ <;> decide

/-- C8 (amended): `drain` fails with `InvalidInternalState` exactly when
`l1_ref_pending` is set or no future B frame is buffered (though it can also fail
with `request_p`'s panics otherwise); and a successful `drain` removes exactly one
frame from the back of `future_b_frames`, returns the single P request `request_p`
builds from it, and records that request's metadata in `l1_ref_pending`. -/
theorem c8_drain_spec :
    (∀ (P R : Type) (s : GroupOfPictures P R),
      s.drain = .error RunErr.invalidInternalState ↔
      (s.l1_ref_pending ≠ none ∨ s.future_b_frames = [])) ∧
    (∀ (P R : Type) (s s2 : GroupOfPictures P R)
       (reqs : List (BackendRequest P R)),
      s.drain = .ok (s2, reqs) →
      s.l1_ref_pending = none ∧
      ∃ input meta l0 req,
        s.future_b_frames.getLast? = some (input, meta) ∧
        s.l0_ref = some l0 ∧ reqs = [req] ∧
        req = { input := input, input_meta := meta,
                dpb_meta := { poc := (s.poc_counter + s.size) * 2,
                              frame_num := s.frame_counter,
                              is_reference := .shortTerm },
                ref_list_0 := [l0], ref_list_1 := [], is_idr := false,
                coded_output := [] } ∧
        s2.future_b_frames = s.future_b_frames.dropLast ∧
        s2.future_b_frames.length + 1 = s.future_b_frames.length ∧
        s2.l1_ref_pending = some req.dpb_meta ∧
        s2.poc_counter = s.poc_counter + 1 ∧
        s2.frame_counter = s.frame_counter + 1) := by
  constructor
  · intro P R s
    unfold GroupOfPictures.drain
    by_cases hg : s.l1_ref_pending ≠ none
    · rw [if_pos hg]
      exact ⟨fun _ => Or.inl hg, fun _ => rfl⟩
    · rw [if_neg hg]
      rcases hlast : s.future_b_frames.getLast? with _ | ⟨input, meta⟩
      · constructor
        · intro _
          right
          rcases hfb : s.future_b_frames with _ | ⟨b, rest⟩
          · rfl
          · rw [hfb] at hlast
            rcases hcons : (b :: rest).getLast? with _ | x
            · rw [List.getLast?_eq_none_iff] at hcons
              cases hcons
            · rw [hcons] at hlast
              cases hlast
        · intro _
          rfl
      · dsimp only
        constructor
        · intro h
          rcases hp : GroupOfPictures.request_p
              { s with future_b_frames := s.future_b_frames.dropLast }
              input meta with e | ⟨s4, req⟩
          · rw [hp] at h
            dsimp only at h
            rw [Except.error.injEq] at h
            rw [h] at hp
            exact absurd hp (gop_request_p_no_invalid _ input meta)
          · rw [hp] at h
            cases h
        · intro hor
          rcases hor with hor | hor
          · exact absurd hor hg
          · rw [hor] at hlast
            cases hlast
  · intro P R s s2 reqs h
    unfold GroupOfPictures.drain at h
    by_cases hg : s.l1_ref_pending ≠ none
    · rw [if_pos hg] at h; cases h
    rw [if_neg hg] at h
    rcases hlast : s.future_b_frames.getLast? with _ | ⟨input, meta⟩
    · rw [hlast] at h; cases h
    rw [hlast] at h
    dsimp only at h
    rcases hp : GroupOfPictures.request_p
        { s with future_b_frames := s.future_b_frames.dropLast } input meta
      with e | ⟨s4, req⟩
    · rw [hp] at h; cases h
    rw [hp] at h
    dsimp only at h
    simp only [Except.ok.injEq, Prod.mk.injEq] at h
    obtain ⟨hs2, hreqs⟩ := h
    obtain ⟨l0, hl0, _, _, hreq, hs4⟩ := gop_request_p_inv _ s4 input meta req hp
    dsimp only at hl0 hreq hs4
    have hfbne : s.future_b_frames ≠ [] := by
      intro hfb
      rw [hfb] at hlast
      cases hlast
    refine ⟨Decidable.not_not.mp hg, input, meta, l0, req, rfl, hl0,
      hreqs.symm, ?_, ?_, ?_, ?_, ?_, ?_⟩
    · rw [hreq]
    · rw [← hs2]
      dsimp only
      rw [hs4]
    · rw [← hs2]
      dsimp only
      rw [hs4]
      dsimp only
      rw [List.length_dropLast]
      have : s.future_b_frames.length ≠ 0 := by
        intro hlen
        exact hfbne (List.length_eq_zero.mp hlen)
      omega
    · rw [← hs2]
    · rw [← hs2]
      dsimp only
      rw [hs4]
    · rw [← hs2]
      dsimp only
      rw [hs4]

/-- Witness for C8 at a concrete input: `drain` on the mid-GOP state `c8state`
succeeds and has the amended shape, consuming the single buffered frame into the P
request `c8req` and leaving `c8state2`. -/
theorem c8_drain_spec_witness :
    c8state.l1_ref_pending = none ∧
    ∃ input meta l0 req,
      c8state.future_b_frames.getLast? = some (input, meta) ∧
      c8state.l0_ref = some l0 ∧ [c8req] = [req] ∧
      req = { input := input, input_meta := meta,
              dpb_meta := { poc := (c8state.poc_counter + c8state.size) * 2,
                            frame_num := c8state.frame_counter,
                            is_reference := .shortTerm },
              ref_list_0 := [l0], ref_list_1 := [], is_idr := false,
              coded_output := [] } ∧
      c8state2.future_b_frames = c8state.future_b_frames.dropLast ∧
      c8state2.future_b_frames.length + 1 = c8state.future_b_frames.length ∧
      c8state2.l1_ref_pending = some req.dpb_meta ∧
      c8state2.poc_counter = c8state.poc_counter + 1 ∧
      c8state2.frame_counter = c8state.frame_counter + 1 :=
  c8_drain_spec.2 Unit Unit c8state c8state2 [c8req] (by decide)

/-- Polling an output queue whose head is a ready slice promise pops it and yields
its coded buffer, in either blocking mode. -/
theorem poll_slice_cons (b m : BlockingMode) (r : BackendRequest Unit Unit)
    (rest : List (MPromise CodedBitstreamBuffer)) :
    OutputQueue.poll { blocking := b, promises := mkSlicePromise r :: rest } m =
      (.ok (some { meta := r.input_meta, bitstream := r.coded_output }),
       { blocking := b, promises := rest }) := by
  simp [OutputQueue.poll, mkSlicePromise, Except.map]

/-- Polling an empty output queue yields `Ok(None)` and leaves it unchanged. -/
theorem poll_nil {T : Type} (b m : BlockingMode) :
    OutputQueue.poll ({ blocking := b, promises := [] } : OutputQueue T) m =
      (.ok none, { blocking := b, promises := [] }) := by
  simp [OutputQueue.poll]

/-- A successful `LowDelay::next_request` conserves frame metadata: the emitted
requests' input metadata followed by the remaining queue equals the original
queue. -/
theorem ld_next_request_metas {P R : Type} (s s2 : LowDelay P R)
    (v : PredictorVerdict P R) (h : s.next_request = .ok (s2, v)) :
    v.requestsOf.map (fun r => r.input_meta) ++ s2.queue.map (fun q => q.2) =
      s.queue.map (fun q => q.2) := by
  obtain ⟨-, hc⟩ := LowDelay.next_request_cases s s2 v h
  rcases hc with ⟨hq, hs2, hv⟩ | ⟨input, meta, rest, hq, hc⟩
  · rw [hs2, hv, hq]
    rfl
  · rcases hc with ⟨-, hs2, hv⟩ | ⟨-, -, hs2, hv⟩ | ⟨-, -, -, -, -, -, -, hs2, hv⟩
    · rw [hs2, hv, hq]
      rfl
    · rw [hs2, hv, hq]
      rfl
    · rw [hs2, hv, hq]
      rfl

/-- `LowDelay::new_frame` conserves metadata: emitted requests plus the remaining
queue account exactly for the old queue plus the new frame. -/
theorem ld_new_frame_metas {P R : Type} (s s2 : LowDelay P R) (input : P)
    (meta : FrameMetadata) (v : PredictorVerdict P R)
    (h : s.new_frame input meta = .ok (s2, v)) :
    v.requestsOf.map (fun r => r.input_meta) ++ s2.queue.map (fun q => q.2) =
      s.queue.map (fun q => q.2) ++ [meta] := by
  unfold LowDelay.new_frame at h
  have hm := ld_next_request_metas _ s2 v h
  simpa using hm

/-- `LowDelay::reconstructed` conserves metadata: emitted requests plus the
remaining queue account exactly for the old queue. -/
theorem ld_reconstructed_metas {P R : Type} (s s2 : LowDelay P R)
    (recon : DpbEntry R) (v : PredictorVerdict P R)
    (h : s.reconstructed recon = .ok (s2, v)) :
    v.requestsOf.map (fun r => r.input_meta) ++ s2.queue.map (fun q => q.2) =
      s.queue.map (fun q => q.2) := by
  unfold LowDelay.reconstructed at h
  exact ld_next_request_metas { s with dpb := s.dpb ++ [recon] } s2 v h

/-- Inversion of the request-submission loop of `StatelessEncoder::execute`: on
success it files one ready slice promise per request in submission order and
consumes that much of `predictor_frame_count`, leaving predictor and coded buffers
untouched. -/
theorem executeReqs_inv :
    ∀ (rs : List (BackendRequest Unit Unit)) (s s2 : EncoderModel),
    s.executeReqs rs = .ok s2 →
    s2.predictor = s.predictor ∧ s2.coded_queue = s.coded_queue ∧
    s2.output_queue.promises = s.output_queue.promises ++ rs.map mkSlicePromise ∧
    s2.predictor_frame_count + rs.length = s.predictor_frame_count := by
  intro rs
  induction rs with
  | nil =>
    intro s s2 h
    unfold EncoderModel.executeReqs at h
    rw [Except.ok.injEq] at h
    rw [← h]
    simp
  | cons r rest ih =>
    intro s s2 h
    unfold EncoderModel.executeReqs at h
    by_cases h0 : s.predictor_frame_count = 0
    · rw [if_pos h0] at h; cases h
    rw [if_neg h0] at h
    obtain ⟨hp, hc, hprom, hcount⟩ := ih _ s2 h
    dsimp only [EncoderModel.submit] at hp hc hprom hcount
    refine ⟨hp, hc, ?_, ?_⟩
    · rw [hprom]
      dsimp only [OutputQueue.add_promise]
      simp
    · rw [List.length_cons]
      omega

/-- Inversion of `StatelessEncoder::execute`. -/
theorem execute_inv (s s2 : EncoderModel) (v : PredictorVerdict Unit Unit)
    (b : Bool) (h : s.execute v = .ok (s2, b)) :
    s2.predictor = s.predictor ∧ s2.coded_queue = s.coded_queue ∧
    s2.output_queue.promises =
      s.output_queue.promises ++ v.requestsOf.map mkSlicePromise ∧
    s2.predictor_frame_count + v.requestsOf.length = s.predictor_frame_count := by
  cases v with
  | noOperation =>
    unfold EncoderModel.execute at h
    dsimp only at h
    simp only [Except.ok.injEq, Prod.mk.injEq] at h
    rw [← h.1]
    simp [PredictorVerdict.requestsOf]
  | request reqs =>
    unfold EncoderModel.execute at h
    dsimp only at h
    rcases hex : s.executeReqs reqs with e | s3
    · rw [hex] at h; cases h
    rw [hex] at h
    simp only [Except.ok.injEq, Prod.mk.injEq] at h
    rw [← h.1]
    exact executeReqs_inv reqs s s3 hex

/-- An `execute` of an empty request list leaves the encoder state unchanged. -/
theorem execute_empty (s s2 : EncoderModel) (v : PredictorVerdict Unit Unit)
    (b : Bool) (hv : v.requestsOf = []) (h : s.execute v = .ok (s2, b)) :
    s2 = s := by
  cases v with
  | noOperation =>
    unfold EncoderModel.execute at h
    dsimp only at h
    simp only [Except.ok.injEq, Prod.mk.injEq] at h
    exact h.1.symm
  | request reqs =>
    have hreqs : reqs = [] := hv
    subst hreqs
    unfold EncoderModel.execute EncoderModel.executeReqs at h
    dsimp only at h
    simp only [Except.ok.injEq, Prod.mk.injEq] at h
    exact h.1.symm

/-- `StatelessEncoder::encode` preserves the conservation invariant, extending the
consumed stream by the encoded frame. -/
theorem encode_inv (s s2 : EncoderModel) (m : FrameMetadata)
    (c : List FrameMetadata) (hI : EncInv s c) (h : s.encode m = .ok s2) :
    EncInv s2 (c ++ [m]) := by
  unfold EncoderModel.encode at h
  dsimp only at h
  rcases hnf : s.predictor.new_frame () m with e | ⟨p2, verdict⟩
  · rw [hnf] at h; cases h
  rw [hnf] at h
  dsimp only at h
  split at h
  · cases h
  · next s3 b heq =>
    rw [Except.ok.injEq] at h
    obtain ⟨hcount3, hcoded3, hprom3, hcnt3⟩ := execute_inv _ s3 verdict b heq
    dsimp only at hcount3 hcoded3 hprom3 hcnt3
    have hmet := ld_new_frame_metas s.predictor p2 () m verdict hnf
    obtain ⟨hcq, pend, hprom, hacc⟩ := hI
    rw [← h]
    refine ⟨?_, pend ++ verdict.requestsOf, ?_, ?_⟩
    · have hlen := congrArg List.length hmet
      simp only [List.length_append, List.length_map,
        List.length_singleton] at hlen
      rw [hcount3]
      omega
    · rw [hprom3, hprom, List.map_append]
    · rw [hcoded3, hcount3]
      rw [List.map_append]
      have : s.coded_queue.map (fun cb => cb.meta) ++
          (pend.map (fun r => r.input_meta) ++
            verdict.requestsOf.map (fun r => r.input_meta)) ++
          p2.queue.map (fun q => q.2) =
          s.coded_queue.map (fun cb => cb.meta) ++
          pend.map (fun r => r.input_meta) ++
          (verdict.requestsOf.map (fun r => r.input_meta) ++
            p2.queue.map (fun q => q.2)) := by
        simp [List.append_assoc]
      rw [this, hmet, ← List.append_assoc, hacc]

/-- The coded-promise pump of `poll_pending` moves a prefix of the queued (ready)
slice promises into the coded buffer queue, in order, leaving everything else
untouched. -/
theorem codedLoop_inv :
    ∀ (fuel : Nat) (mode : BlockingMode) (s s2 : EncoderModel)
      (pend : List (BackendRequest Unit Unit)),
    s.output_queue.promises = pend.map mkSlicePromise →
    EncoderModel.codedLoop fuel mode s = .ok s2 →
    ∃ k, s2.predictor = s.predictor ∧
      s2.predictor_frame_count = s.predictor_frame_count ∧
      s2.recon_queue = s.recon_queue ∧
      s2.output_queue.promises = (pend.drop k).map mkSlicePromise ∧
      s2.coded_queue = s.coded_queue ++
        (pend.take k).map
          (fun r => { meta := r.input_meta, bitstream := r.coded_output }) := by
  intro fuel
  induction fuel with
  | zero =>
    intro mode s s2 pend hprom h
    unfold EncoderModel.codedLoop at h
    cases h
  | succ fuel ih =>
    intro mode s s2 pend hprom h
    unfold EncoderModel.codedLoop at h
    cases pend with
    | nil =>
      have hpn : s.output_queue.promises = [] := by
        rw [hprom]
        exact rfl
      have hq : s.output_queue =
          { blocking := s.output_queue.blocking,
            promises := ([] : List (MPromise CodedBitstreamBuffer)) } := by
        rw [← hpn]
      rw [hq, poll_nil] at h
      dsimp only at h
      rw [Except.ok.injEq] at h
      refine ⟨0, ?_, ?_, ?_, ?_, ?_⟩ <;> rw [← h] <;> simp
    | cons r rest =>
      have hq : s.output_queue =
          { blocking := s.output_queue.blocking,
            promises := mkSlicePromise r :: List.map mkSlicePromise rest } := by
        rw [← List.map_cons, ← hprom]
      rw [hq, poll_slice_cons] at h
      dsimp only at h
      obtain ⟨k, hp2, hc2, hr2, hprom2, hcoded2⟩ := ih mode _ s2 rest rfl h
      dsimp only at hp2 hc2 hr2 hprom2 hcoded2
      refine ⟨k + 1, hp2, hc2, hr2, ?_, ?_⟩
      · rw [hprom2, List.drop_succ_cons]
      · rw [hcoded2, List.take_succ_cons]
        simp

/-- The reconstruction pump of `poll_pending` preserves the conservation invariant
and the coded buffer queue; on an idle predictor (empty pending queue) it changes
neither the output queue nor the frame count. -/
theorem reconLoop_inv :
    ∀ (fuel : Nat) (mode : BlockingMode) (s s2 : EncoderModel),
    EncoderModel.reconLoop fuel mode s = .ok s2 →
    s2.coded_queue = s.coded_queue ∧
    (∀ c, EncInv s c → EncInv s2 c) ∧
    (s.predictor.queue = [] →
      s2.predictor.queue = [] ∧ s2.output_queue = s.output_queue ∧
      s2.predictor_frame_count = s.predictor_frame_count) := by
  intro fuel
  induction fuel with
  | zero =>
    intro mode s s2 h
    unfold EncoderModel.reconLoop at h
    cases h
  | succ fuel ih =>
    intro mode s s2 h
    unfold EncoderModel.reconLoop at h
    split at h
    · cases h
    · rw [Except.ok.injEq] at h
      rw [← h]
      exact ⟨rfl, fun c hI => hI, fun hq => ⟨hq, rfl, rfl⟩⟩
    · next recon q2 heq =>
      dsimp only at h
      rcases hrec : s.predictor.reconstructed recon with e | ⟨p2, verdict⟩
      · rw [hrec] at h; cases h
      rw [hrec] at h
      dsimp only at h
      split at h
      · cases h
      · next s3 heq3 =>
        obtain ⟨hp3, hc3, hprom3, hcnt3⟩ := execute_inv _ s3 verdict true heq3
        dsimp only at hp3 hc3 hprom3 hcnt3
        have hmet := ld_reconstructed_metas s.predictor p2 recon verdict hrec
        have hstep : ∀ c, EncInv s c → EncInv s3 c := by
          intro c hI
          obtain ⟨hcq, pend, hprom, hacc⟩ := hI
          refine ⟨?_, pend ++ verdict.requestsOf, ?_, ?_⟩
          · have hlen := congrArg List.length hmet
            simp only [List.length_append, List.length_map] at hlen
            rw [hp3]
            omega
          · rw [hprom3, hprom, List.map_append]
          · rw [hc3, hp3, List.map_append]
            have hre : s.coded_queue.map (fun cb => cb.meta) ++
                (pend.map (fun r => r.input_meta) ++
                  verdict.requestsOf.map (fun r => r.input_meta)) ++
                p2.queue.map (fun q => q.2) =
                s.coded_queue.map (fun cb => cb.meta) ++
                pend.map (fun r => r.input_meta) ++
                (verdict.requestsOf.map (fun r => r.input_meta) ++
                  p2.queue.map (fun q => q.2)) := by
              simp [List.append_assoc]
            rw [hre, hmet, hacc]
        have hqstep : s.predictor.queue = [] →
            s3.predictor.queue = [] ∧ s3.output_queue = s.output_queue ∧
            s3.predictor_frame_count = s.predictor_frame_count := by
          intro hq
          rw [hq] at hmet
          simp only [List.map_nil, List.append_eq_nil] at hmet
          have hreqs : verdict.requestsOf = [] := List.map_eq_nil.mp hmet.1
          have hq2 : p2.queue = [] := List.map_eq_nil.mp hmet.2
          have hs3 := execute_empty _ s3 verdict true hreqs heq3
          rw [hs3]
          exact ⟨hq2, rfl, rfl⟩
        obtain ⟨ihc, ihI, ihq⟩ := ih mode s3 s2 h
        refine ⟨?_, ?_, ?_⟩
        · rw [ihc, hc3]
        · intro c hI
          exact ihI c (hstep c hI)
        · intro hq
          obtain ⟨hq3, ho3, hn3⟩ := hqstep hq
          obtain ⟨hq2, ho2, hn2⟩ := ihq hq3
          exact ⟨hq2, by rw [ho2, ho3], by rw [hn2, hn3]⟩
      · next s3 heq3 =>
        rw [Except.ok.injEq] at h
        obtain ⟨hp3, hc3, hprom3, hcnt3⟩ := execute_inv _ s3 verdict false heq3
        dsimp only at hp3 hc3 hprom3 hcnt3
        have hmet := ld_reconstructed_metas s.predictor p2 recon verdict hrec
        rw [← h]
        refine ⟨hc3, ?_, ?_⟩
        · intro c hI
          obtain ⟨hcq, pend, hprom, hacc⟩ := hI
          refine ⟨?_, pend ++ verdict.requestsOf, ?_, ?_⟩
          · have hlen := congrArg List.length hmet
            simp only [List.length_append, List.length_map] at hlen
            rw [hp3]
            omega
          · rw [hprom3, hprom, List.map_append]
          · rw [hc3, hp3, List.map_append]
            have hre : s.coded_queue.map (fun cb => cb.meta) ++
                (pend.map (fun r => r.input_meta) ++
                  verdict.requestsOf.map (fun r => r.input_meta)) ++
                p2.queue.map (fun q => q.2) =
                s.coded_queue.map (fun cb => cb.meta) ++
                pend.map (fun r => r.input_meta) ++
                (verdict.requestsOf.map (fun r => r.input_meta) ++
                  p2.queue.map (fun q => q.2)) := by
              simp [List.append_assoc]
            rw [hre, hmet, hacc]
        · intro hq
          rw [hq] at hmet
          simp only [List.map_nil, List.append_eq_nil] at hmet
          have hreqs : verdict.requestsOf = [] := List.map_eq_nil.mp hmet.1
          have hq2 : p2.queue = [] := List.map_eq_nil.mp hmet.2
          have hs3 := execute_empty _ s3 verdict false hreqs heq3
          rw [hs3]
          exact ⟨hq2, rfl, rfl⟩

/-- `poll_pending` preserves the conservation invariant; on an idle predictor it
keeps the frame count, and if additionally no coded promise is queued it leaves the
output and coded queues unchanged. -/
theorem poll_pending_inv (fuel : Nat) (mode : BlockingMode) (s s2 : EncoderModel)
    (c : List FrameMetadata) (hI : EncInv s c)
    (h : EncoderModel.poll_pending fuel mode s = .ok s2) :
    EncInv s2 c ∧
    (s.predictor.queue = [] → s2.predictor.queue = [] ∧
      s2.predictor_frame_count = s.predictor_frame_count ∧
      (s.output_queue.promises = [] → s2.output_queue.promises = [] ∧
        s2.coded_queue = s.coded_queue)) := by
  unfold EncoderModel.poll_pending at h
  split at h
  · cases h
  · next s3 heq =>
    obtain ⟨hcq, pend, hprom, hacc⟩ := hI
    obtain ⟨k, hp3, hn3, hr3, hprom3, hcoded3⟩ :=
      codedLoop_inv fuel mode s s3 pend hprom heq
    have hI3 : EncInv s3 c := by
      refine ⟨by rw [hn3, hp3, hcq], pend.drop k, hprom3, ?_⟩
      rw [hcoded3, hp3, List.map_append, List.map_map]
      have hfuse : (pend.take k).map ((fun cb => cb.meta) ∘
          (fun r => ({ meta := r.input_meta, bitstream := r.coded_output } :
            CodedBitstreamBuffer))) =
          (pend.take k).map (fun r => r.input_meta) := rfl
      rw [hfuse, List.append_assoc (s.coded_queue.map (fun cb => cb.meta)),
        ← List.map_append, List.take_append_drop]
      exact hacc
    obtain ⟨ihc, ihI, ihq⟩ := reconLoop_inv fuel mode s3 s2 h
    refine ⟨ihI c hI3, ?_⟩
    intro hq
    have hq3 : s3.predictor.queue = [] := by rw [hp3, hq]
    obtain ⟨hq2, ho2, hn2⟩ := ihq hq3
    refine ⟨hq2, by rw [hn2, hn3], ?_⟩
    intro hpnil
    have hpendnil : pend = [] := by
      rw [hpnil] at hprom
      exact (List.map_eq_nil.mp hprom.symm)
    constructor
    · rw [ho2, hprom3, hpendnil]
      simp
    · rw [ihc, hcoded3, hpendnil]
      simp

/-- The first loop of `StatelessEncoder::drain` preserves the conservation
invariant and exits with an exhausted predictor frame count. -/
theorem drainLoop_inv :
    ∀ (fuel : Nat) (s s2 : EncoderModel) (c : List FrameMetadata),
    EncInv s c → EncoderModel.drainLoop fuel s = .ok s2 →
    EncInv s2 c ∧ s2.predictor_frame_count = 0 := by
  intro fuel
  induction fuel with
  | zero =>
    intro s s2 c hI h
    unfold EncoderModel.drainLoop at h
    cases h
  | succ fuel ih =>
    intro s s2 c hI h
    unfold EncoderModel.drainLoop at h
    by_cases hcond : s.predictor_frame_count ≠ 0 ∨ s.recon_queue.is_empty = false
    · rw [if_pos hcond] at h
      dsimp only at h
      by_cases hie : s.output_queue.is_empty = true ∧ s.recon_queue.is_empty = true
      · rw [if_pos hie] at h
        simp only [LowDelay.drain] at h
        cases h
      · rw [if_neg hie] at h
        dsimp only at h
        split at h
        · cases h
        · next s3 heq =>
          obtain ⟨hI3, _⟩ := poll_pending_inv fuel .blocking s s3 c hI heq
          exact ih s3 s2 c hI3 h
    · rw [if_neg hcond] at h
      rw [Except.ok.injEq] at h
      push_neg at hcond
      exact ⟨h ▸ hI, by rw [← h]; exact hcond.1⟩

/-- The second loop of `StatelessEncoder::drain` preserves the conservation
invariant and the idle predictor, and exits with an empty output queue. -/
theorem outLoop_inv :
    ∀ (fuel : Nat) (s s2 : EncoderModel) (c : List FrameMetadata),
    EncInv s c → s.predictor.queue = [] →
    EncoderModel.outLoop fuel s = .ok s2 →
    EncInv s2 c ∧ s2.predictor.queue = [] ∧
    s2.output_queue.is_empty = true := by
  intro fuel
  induction fuel with
  | zero =>
    intro s s2 c hI hq h
    unfold EncoderModel.outLoop at h
    cases h
  | succ fuel ih =>
    intro s s2 c hI hq h
    unfold EncoderModel.outLoop at h
    by_cases hcond : s.output_queue.is_empty = false
    · rw [if_pos hcond] at h
      split at h
      · cases h
      · next s3 heq =>
        obtain ⟨hI3, h2⟩ := poll_pending_inv fuel .blocking s s3 c hI heq
        obtain ⟨hq3, -, -⟩ := h2 hq
        exact ih s3 s2 c hI3 hq3 h
    · rw [if_neg hcond] at h
      rw [Except.ok.injEq] at h
      have hie : s.output_queue.is_empty = true := by
        revert hcond
        cases s.output_queue.is_empty <;> simp
      rw [← h]
      exact ⟨hI, hq, hie⟩

/-- In the final polling phase (idle predictor, no queued coded promise),
`poll_pending` changes nothing that matters: the predictor stays idle and the
output and coded queues are untouched. -/
theorem poll_pending_empty (fuel : Nat) (mode : BlockingMode)
    (s s2 : EncoderModel) (hq : s.predictor.queue = [])
    (hp : s.output_queue.promises = [])
    (h : EncoderModel.poll_pending fuel mode s = .ok s2) :
    s2.predictor.queue = [] ∧ s2.output_queue.promises = [] ∧
    s2.coded_queue = s.coded_queue := by
  unfold EncoderModel.poll_pending at h
  split at h
  · cases h
  · next s3 heq =>
    obtain ⟨k, hp3, hn3, hr3, hprom3, hcoded3⟩ :=
      codedLoop_inv fuel mode s s3 [] (by rw [hp]; rfl) heq
    obtain ⟨ihc, -, ihq⟩ := reconLoop_inv fuel mode s3 s2 h
    obtain ⟨hq2, ho2, -⟩ := ihq (by rw [hp3, hq])
    refine ⟨hq2, ?_, ?_⟩
    · rw [ho2, hprom3]
      simp
    · rw [ihc, hcoded3]
      simp

/-- Repeated `poll` after the queues have emptied returns exactly the coded buffer
queue, in order. -/
theorem pollAll_out :
    ∀ (fuel : Nat) (s : EncoderModel) (acc out : List CodedBitstreamBuffer),
    s.predictor.queue = [] → s.output_queue.promises = [] →
    EncoderModel.pollAll fuel s acc = .ok out →
    out = acc ++ s.coded_queue := by
  intro fuel
  induction fuel with
  | zero =>
    intro s acc out hq hp h
    unfold EncoderModel.pollAll at h
    cases h
  | succ fuel ih =>
    intro s acc out hq hp h
    unfold EncoderModel.pollAll at h
    split at h
    · cases h
    · next sx heq =>
      rw [Except.ok.injEq] at h
      unfold EncoderModel.poll at heq
      split at heq
      · cases heq
      · next s3 heq2 =>
        obtain ⟨hq3, hp3, hc3⟩ := poll_pending_empty fuel .nonBlocking s s3 hq hp heq2
        split at heq
        · next hnil =>
          rw [← h]
          have hnil2 : s.coded_queue = [] := by
            rw [← hc3, hnil]
          rw [hnil2]
          simp
        · next cb rest hcons =>
          simp at heq
    · next cb sx heq =>
      unfold EncoderModel.poll at heq
      split at heq
      · cases heq
      · next s3 heq2 =>
        obtain ⟨hq3, hp3, hc3⟩ := poll_pending_empty fuel .nonBlocking s s3 hq hp heq2
        split at heq
        · simp at heq
        · next cb2 rest hcons =>
          simp only [Except.ok.injEq, Prod.mk.injEq, Option.some.injEq] at heq
          obtain ⟨hcb, hsx⟩ := heq
          rw [← hsx] at h
          have hrec := ih _ (acc ++ [cb]) out (by exact hq3) (by exact hp3) h
          rw [hrec]
          dsimp only
          rw [← hc3, hcons, hcb]
          simp

/-- Feeding a frame stream through `encode` extends the conserved stream by those
frames. -/
theorem encodeAll_inv :
    ∀ (metas : List FrameMetadata) (s s2 : EncoderModel) (c : List FrameMetadata),
    EncInv s c → EncoderModel.encodeAll s metas = .ok s2 →
    EncInv s2 (c ++ metas) := by
  intro metas
  induction metas with
  | nil =>
    intro s s2 c hI h
    unfold EncoderModel.encodeAll at h
    rw [Except.ok.injEq] at h
    rw [← h, List.append_nil]
    exact hI
  | cons m rest ih =>
    intro s s2 c hI h
    unfold EncoderModel.encodeAll at h
    rcases henc : s.encode m with e | s3
    · rw [henc] at h; cases h
    rw [henc] at h
    dsimp only at h
    have hI3 := encode_inv s s3 m c hI henc
    have := ih s3 s2 (c ++ [m]) hI3 h
    rwa [List.append_assoc, List.singleton_append] at this

/-- C1: when the full client scenario — construct the encoder, `encode` a stream of
frames with strictly increasing timestamps, `drain`, then `poll` until `None` —
completes successfully, it yields exactly one coded buffer per encoded frame, and
the buffers carry the input timestamps in input order. -/
theorem c1_output_conservation :
    ∀ (config : EncoderConfig) (mode : BlockingMode) (metas : List FrameMetadata)
      (fuel : Nat) (out : List CodedBitstreamBuffer),
      List.Pairwise (fun a b => a.timestamp < b.timestamp) metas →
      encoderRun config mode metas fuel = .ok out →
      out.map (fun cb => cb.meta.timestamp) = metas.map (fun m => m.timestamp) ∧
      out.length = metas.length := by
  intro config mode metas fuel out _ h
  unfold encoderRun at h
  rcases hnew : StatelessEncoder.new config mode with _ | s0
  · rw [hnew] at h; cases h
  rw [hnew] at h
  dsimp only at h
  rcases henc : s0.encodeAll metas with e | s1
  · rw [henc] at h; cases h
  rw [henc] at h
  dsimp only at h
  rcases hdr : s1.drain fuel with e | s2
  · rw [hdr] at h; cases h
  rw [hdr] at h
  dsimp only at h
  have hI0 : EncInv s0 [] := by
    unfold StatelessEncoder.new at hnew
    rcases hps : config.pred_structure with ⟨tail, limit⟩ | ⟨size, limit⟩
    · rw [hps] at hnew
      rw [Option.some.injEq] at hnew
      rw [← hnew]
      exact ⟨rfl, [], rfl, rfl⟩
    · rw [hps] at hnew
      cases hnew
  have hI1 := encodeAll_inv metas s0 s1 [] hI0 henc
  rw [List.nil_append] at hI1
  unfold EncoderModel.drain at hdr
  split at hdr
  · cases hdr
  · next s15 heqd =>
    obtain ⟨hI15, hcnt0⟩ := drainLoop_inv fuel s1 s15 metas hI1 heqd
    have hq15 : s15.predictor.queue = [] := by
      have hl := hI15.1
      rw [hcnt0] at hl
      exact List.eq_nil_of_length_eq_zero hl.symm
    obtain ⟨hI2, hq2, hie2⟩ := outLoop_inv fuel s15 s2 metas hI15 hq15 hdr
    have hprom2 : s2.output_queue.promises = [] := by
      unfold OutputQueue.is_empty at hie2
      exact List.isEmpty_iff_eq_nil.mp hie2
    obtain ⟨hcq2, pend2, hpend2, hacc2⟩ := hI2
    have hpend2nil : pend2 = [] := by
      rw [hprom2] at hpend2
      exact List.map_eq_nil.mp hpend2.symm
    rw [hpend2nil, hq2] at hacc2
    simp only [List.map_nil, List.append_nil] at hacc2
    have hout := pollAll_out fuel s2 [] out hq2 hprom2 h
    rw [List.nil_append] at hout
    rw [hout]
    constructor
    · rw [← hacc2, List.map_map]
      rfl
    · have hlen := congrArg List.length hacc2
      simp only [List.length_map] at hlen
      exact hlen

/-- Witness for C1 at a concrete input: two frames with timestamps 0 and 1 through
a `LowDelay{tail=2, limit=16}` blocking encoder yield exactly the two coded buffers
`c1out`, carrying timestamps 0 and 1. -/
theorem c1_output_conservation_witness :
    List.Pairwise (fun a b => a.timestamp < b.timestamp)
      [mkMeta 0 false, mkMeta 1 false] ∧
    (c1out.map (fun cb => cb.meta.timestamp) =
      [mkMeta 0 false, mkMeta 1 false].map (fun m => m.timestamp) ∧
     c1out.length = [mkMeta 0 false, mkMeta 1 false].length) :=
  ⟨by decide, c1_output_conservation (mkConfig (.lowDelay 2 16)) .blocking
    [mkMeta 0 false, mkMeta 1 false] 30 c1out (by decide) (by decide)⟩

end CrosCodecs
